import Mathlib

/-!
Shallow embedding of the Discord gating bot core: the rule evaluator
(src/rules/evaluator.ts), the reconciliation worker (gatingWorker),
the verification protocol (src/services/verifyService.ts), the price
cache (coingeckoClient) and the NFT counting step
(src/solana/holdingsService.ts), with theorems settling the frozen
claims about them.

Strings, integers and decimals of the source are modelled as `String`,
`Int`/`Nat` and `Rat`; JavaScript `Map` objects are association lists
with `Map.get`/`Map.set` semantics; database rows are plain structures;
external fetches are world-supplied results.
-/

namespace DiscordGating

/-- First-match association-list lookup, the shape of `Map.get` for the
maps this code builds (all of which have distinct keys). -/
def lookupG {α : Type} (r : String) : List (String × α) → Option α
  | [] => none
  | (k, v) :: rest => if k = r then some v else lookupG r rest

/-- `Map.set` semantics: replace the entry in place when the key exists,
otherwise append it at the end (JS `Map` keeps insertion order). -/
def setAssoc {α : Type} (m : List (String × α)) (k : String) (v : α) : List (String × α) :=
  match m with
  | [] => [(k, v)]
  | (k0, v0) :: rest =>
    if k0 = k then (k0, v) :: rest else (k0, v0) :: setAssoc rest k v

/-- `RuleType` enum of the Prisma schema (`TOKEN_AMOUNT`, `TOKEN_USD`,
`NFT_COLLECTION`). -/
inductive RuleType
  | TOKEN_AMOUNT
  | TOKEN_USD
  | NFT_COLLECTION
deriving DecidableEq, Repr

/-- A `GatingRule` row: the wide nullable schema of the `gating_rules`
table, as consumed by the evaluator. -/
structure GatingRule where
  id : String
  roleId : String
  type : RuleType
  mint : Option String
  collection : Option String
  thresholdAmount : Option Rat
  thresholdUsd : Option Rat
  thresholdCount : Option Int
  priceAssetId : Option String
  enabled : Bool
deriving DecidableEq, Repr

/-- `WalletSnapshot` of src/types/gating.ts: UI-scaled token balances by
mint and verified-NFT counts by collection. -/
structure WalletSnapshot where
  wallet : String
  tokenBalancesByMint : List (String × Rat)
  nftCountsByCollection : List (String × Nat)
deriving DecidableEq, Repr

/-- `EvaluationResult`: `satisfied` is the tri-valued
`boolean | null`, modelled as `Option Bool` with `none` for `null`. -/
structure EvaluationResult where
  ruleId : String
  roleId : String
  satisfied : Option Bool
  reason : String
deriving DecidableEq, Repr

/-- `RoleDecision` of src/types/gating.ts. -/
structure RoleDecision where
  roleId : String
  shouldHave : Option Bool
  matchedRuleIds : List String
deriving DecidableEq, Repr

/-- `evaluateRule` of src/rules/evaluator.ts: one rule against a
snapshot and a price map. The final branch of the source is the
fall-through for every `type` other than `TOKEN_AMOUNT` / `TOKEN_USD`. -/
def evaluateRule (rule : GatingRule) (snapshot : WalletSnapshot)
    (pricesUsdByAssetId : List (String × Rat)) : EvaluationResult :=
  if rule.type = RuleType.TOKEN_AMOUNT then
    let threshold := rule.thresholdAmount.getD 0
    let mint := rule.mint.getD ""
    let balance := (lookupG mint snapshot.tokenBalancesByMint).getD 0
    let satisfied := decide (balance ≥ threshold)
    { ruleId := rule.id
      roleId := rule.roleId
      satisfied := some satisfied
      reason := s!"TOKEN_AMOUNT balance={balance} threshold={threshold} mint={mint}" }
  else if rule.type = RuleType.TOKEN_USD then
    let thresholdUsd := rule.thresholdUsd.getD 0
    let mint := rule.mint.getD ""
    let balance := (lookupG mint snapshot.tokenBalancesByMint).getD 0
    let assetId := rule.priceAssetId.getD ""
    match lookupG assetId pricesUsdByAssetId with
    | none =>
      { ruleId := rule.id
        roleId := rule.roleId
        satisfied := none
        reason := s!"TOKEN_USD indeterminate missing price asset={assetId}" }
    | some price =>
      let valueUsd := balance * price
      let satisfied := decide (valueUsd ≥ thresholdUsd)
      { ruleId := rule.id
        roleId := rule.roleId
        satisfied := some satisfied
        reason := s!"TOKEN_USD balance={balance} price={price} value={valueUsd} threshold={thresholdUsd} mint={mint}" }
  else
    let thresholdCount := rule.thresholdCount.getD 0
    let collection := rule.collection.getD ""
    let count := (lookupG collection snapshot.nftCountsByCollection).getD 0
    let satisfied := decide ((count : Int) ≥ thresholdCount)
    { ruleId := rule.id
      roleId := rule.roleId
      satisfied := some satisfied
      reason := s!"NFT_COLLECTION count={count} threshold={thresholdCount} collection={collection}" }

/-- `evaluateRules`: map the single-rule evaluator over the rule list. -/
def evaluateRules (rules : List GatingRule) (snapshot : WalletSnapshot)
    (pricesUsdByAssetId : List (String × Rat)) : List EvaluationResult :=
  rules.map fun rule => evaluateRule rule snapshot pricesUsdByAssetId

/-- One step of the `byRole` grouping loop in `computeRoleDecisions`:
`byRole.set(roleId, (byRole.get(roleId) ?? []).push(e))`. -/
def addToGroups (gs : List (String × List EvaluationResult)) (e : EvaluationResult) :
    List (String × List EvaluationResult) :=
  match gs with
  | [] => [(e.roleId, [e])]
  | (k, l) :: rest =>
    if k = e.roleId then (k, l ++ [e]) :: rest
    else (k, l) :: addToGroups rest e

/-- The `byRole` map of `computeRoleDecisions`, in insertion order. -/
def groupByRole (evaluations : List EvaluationResult) :
    List (String × List EvaluationResult) :=
  evaluations.foldl addToGroups []

/-- The decision built for one `byRole` entry in `computeRoleDecisions`. -/
def mkDecision (roleId : String) (evals : List EvaluationResult) : RoleDecision :=
  let hasTrue := evals.any fun e => e.satisfied == some true
  let hasNull := evals.any fun e => e.satisfied == none
  let shouldHave : Option Bool :=
    if hasTrue then some true else if hasNull then none else some false
  { roleId := roleId
    shouldHave := shouldHave
    matchedRuleIds := (evals.filter fun e => e.satisfied == some true).map (·.ruleId) }

/-- `computeRoleDecisions` of src/rules/evaluator.ts. -/
def computeRoleDecisions (evaluations : List EvaluationResult) : List RoleDecision :=
  (groupByRole evaluations).map fun g => mkDecision g.1 g.2

/-- Keys of a grouping, in insertion order. -/
def keysOf (gs : List (String × List EvaluationResult)) : List String :=
  gs.map Prod.fst

@[simp]
theorem mkDecision_roleId (k : String) (l : List EvaluationResult) :
    (mkDecision k l).roleId = k := rfl

theorem lookupG_addToGroups (gs : List (String × List EvaluationResult))
    (e : EvaluationResult) (r : String) :
    lookupG r (addToGroups gs e) =
      if e.roleId = r then some (((lookupG r gs).getD []) ++ [e]) else lookupG r gs := by
  induction gs with
  | nil =>
    by_cases h : e.roleId = r <;> simp [addToGroups, lookupG, h]
  | cons kv rest ih =>
    obtain ⟨k, l⟩ := kv
    by_cases h1 : k = e.roleId
    · by_cases h2 : k = r
      · have h3 : e.roleId = r := h1.symm.trans h2
        simp [addToGroups, lookupG, h1, h2, h3]
      · have h3 : e.roleId ≠ r := fun hh => h2 (h1.trans hh)
        simp [addToGroups, lookupG, h1, h2, h3]
    · by_cases h2 : k = r
      · have h3 : e.roleId ≠ r := fun hh => h1 (h2.trans hh.symm)
        have h4 : r ≠ e.roleId := fun hh => h3 hh.symm
        simp [addToGroups, lookupG, h1, h2, h3, h4]
      · simp [addToGroups, lookupG, h1, h2, ih]

theorem lookupG_foldl_addToGroups_some (es : List EvaluationResult)
    (gs : List (String × List EvaluationResult)) (r : String)
    (l : List EvaluationResult) (h : lookupG r gs = some l) :
    lookupG r (es.foldl addToGroups gs) =
      some (l ++ es.filter fun e => e.roleId == r) := by
  induction es generalizing gs l with
  | nil => simpa using h
  | cons e es ih =>
    by_cases he : e.roleId = r
    · have h1 : lookupG r (addToGroups gs e) = some (l ++ [e]) := by
        rw [lookupG_addToGroups, if_pos he, h]
        rfl
      have := ih (addToGroups gs e) (l ++ [e]) h1
      simp only [List.foldl_cons, this, List.filter_cons]
      simp [he]
    · have h1 : lookupG r (addToGroups gs e) = some l := by
        rw [lookupG_addToGroups, if_neg he, h]
      have := ih (addToGroups gs e) l h1
      simp only [List.foldl_cons, this, List.filter_cons]
      simp [he]

theorem lookupG_foldl_addToGroups_none (es : List EvaluationResult)
    (gs : List (String × List EvaluationResult)) (r : String)
    (h : lookupG r gs = none) :
    lookupG r (es.foldl addToGroups gs) =
      if (es.filter fun e => e.roleId == r).isEmpty then none
      else some (es.filter fun e => e.roleId == r) := by
  induction es generalizing gs with
  | nil => simpa using h
  | cons e es ih =>
    by_cases he : e.roleId = r
    · have h1 : lookupG r (addToGroups gs e) = some [e] := by
        rw [lookupG_addToGroups, if_pos he, h]
        rfl
      have := lookupG_foldl_addToGroups_some es (addToGroups gs e) r [e] h1
      simp only [List.foldl_cons, this, List.filter_cons]
      simp [he]
    · have h1 : lookupG r (addToGroups gs e) = none := by
        rw [lookupG_addToGroups, if_neg he, h]
      have := ih (addToGroups gs e) h1
      simp only [List.foldl_cons, this, List.filter_cons]
      simp [he]

theorem lookupG_groupByRole (evaluations : List EvaluationResult) (r : String) :
    lookupG r (groupByRole evaluations) =
      if (evaluations.filter fun e => e.roleId == r).isEmpty then none
      else some (evaluations.filter fun e => e.roleId == r) := by
  unfold groupByRole
  exact lookupG_foldl_addToGroups_none evaluations [] r rfl

theorem keysOf_addToGroups (gs : List (String × List EvaluationResult))
    (e : EvaluationResult) :
    keysOf (addToGroups gs e) =
      if e.roleId ∈ keysOf gs then keysOf gs else keysOf gs ++ [e.roleId] := by
  induction gs with
  | nil => simp [addToGroups, keysOf]
  | cons kv rest ih =>
    obtain ⟨k, l⟩ := kv
    by_cases h1 : k = e.roleId
    · have h2 : e.roleId ∈ keysOf ((k, l) :: rest) := by
        simp [keysOf, h1.symm]
      simp [addToGroups, h1, keysOf, h2]
    · have h3 : e.roleId ≠ k := fun hh => h1 hh.symm
      have hadd : addToGroups ((k, l) :: rest) e = (k, l) :: addToGroups rest e := by
        simp [addToGroups, h1]
      by_cases h2 : e.roleId ∈ keysOf rest
      · have h4 : e.roleId ∈ keysOf ((k, l) :: rest) := by
          simp only [keysOf, List.map_cons, List.mem_cons]
          exact Or.inr h2
        rw [hadd, if_pos h4]
        simp only [keysOf, List.map_cons] at ih h2 ⊢
        rw [ih, if_pos h2]
      · have h4 : e.roleId ∉ keysOf ((k, l) :: rest) := by
          simp only [keysOf, List.map_cons, List.mem_cons]
          rintro (hh | hh)
          · exact h3 hh
          · exact h2 hh
        rw [hadd, if_neg h4]
        simp only [keysOf, List.map_cons] at ih h2 ⊢
        rw [ih, if_neg h2, List.cons_append]

theorem mem_keysOf_addToGroups (gs : List (String × List EvaluationResult))
    (e : EvaluationResult) (r : String) :
    r ∈ keysOf (addToGroups gs e) ↔ r ∈ keysOf gs ∨ e.roleId = r := by
  rw [keysOf_addToGroups]
  by_cases h : e.roleId ∈ keysOf gs
  · simp only [if_pos h]
    constructor
    · exact Or.inl
    · rintro (hr | hr)
      · exact hr
      · exact hr ▸ h
  · simp [if_neg h, eq_comm]

theorem nodup_keysOf_addToGroups (gs : List (String × List EvaluationResult))
    (e : EvaluationResult) (h : (keysOf gs).Nodup) :
    (keysOf (addToGroups gs e)).Nodup := by
  rw [keysOf_addToGroups]
  by_cases hm : e.roleId ∈ keysOf gs
  · simpa [hm] using h
  · simp [hm, List.nodup_append, h]

theorem mem_keysOf_foldl (es : List EvaluationResult)
    (gs : List (String × List EvaluationResult)) (r : String) :
    r ∈ keysOf (es.foldl addToGroups gs) ↔
      r ∈ keysOf gs ∨ ∃ e ∈ es, e.roleId = r := by
  induction es generalizing gs with
  | nil => simp
  | cons e es ih =>
    simp only [List.foldl_cons, ih, mem_keysOf_addToGroups, List.mem_cons]
    constructor
    · rintro ((h | h) | ⟨e0, he0, hr⟩)
      · exact Or.inl h
      · exact Or.inr ⟨e, Or.inl rfl, h⟩
      · exact Or.inr ⟨e0, Or.inr he0, hr⟩
    · rintro (h | ⟨e0, (rfl | he0), hr⟩)
      · exact Or.inl (Or.inl h)
      · exact Or.inl (Or.inr hr)
      · exact Or.inr ⟨e0, he0, hr⟩

theorem nodup_keysOf_foldl (es : List EvaluationResult)
    (gs : List (String × List EvaluationResult)) (h : (keysOf gs).Nodup) :
    (keysOf (es.foldl addToGroups gs)).Nodup := by
  induction es generalizing gs with
  | nil => simpa using h
  | cons e es ih =>
    exact ih (addToGroups gs e) (nodup_keysOf_addToGroups gs e h)

theorem nodup_keysOf_groupByRole (evaluations : List EvaluationResult) :
    (keysOf (groupByRole evaluations)).Nodup :=
  nodup_keysOf_foldl evaluations [] (by simp [keysOf])

theorem mem_keysOf_groupByRole (evaluations : List EvaluationResult) (r : String) :
    r ∈ keysOf (groupByRole evaluations) ↔ ∃ e ∈ evaluations, e.roleId = r := by
  unfold groupByRole
  rw [mem_keysOf_foldl]
  simp [keysOf]

theorem lookupG_of_mem_nodup (gs : List (String × List EvaluationResult))
    (k : String) (l : List EvaluationResult)
    (hmem : (k, l) ∈ gs) (hnd : (keysOf gs).Nodup) :
    lookupG k gs = some l := by
  induction gs with
  | nil => simp at hmem
  | cons kv rest ih =>
    obtain ⟨k0, l0⟩ := kv
    simp only [keysOf, List.map_cons, List.nodup_cons] at hnd
    rcases List.mem_cons.mp hmem with h | h
    · injection h with hk hl
      simp [lookupG, hk, hl]
    · have hk : k0 ≠ k := by
        intro heq
        subst heq
        exact hnd.1 (List.mem_map.mpr ⟨(k0, l), h, rfl⟩)
      simp only [lookupG, if_neg hk]
      exact ih h hnd.2

theorem mkDecision_shouldHave_true (k : String) (l : List EvaluationResult) :
    (mkDecision k l).shouldHave = some true ↔ ∃ e ∈ l, e.satisfied = some true := by
  unfold mkDecision
  simp only []
  split_ifs with h1 h2 <;>
    simp_all [List.any_eq_true]

theorem mkDecision_shouldHave_none (k : String) (l : List EvaluationResult) :
    (mkDecision k l).shouldHave = none ↔
      (∀ e ∈ l, e.satisfied ≠ some true) ∧ ∃ e ∈ l, e.satisfied = none := by
  unfold mkDecision
  simp only []
  split_ifs with h1 h2 <;>
    simp_all [List.any_eq_true]

theorem mkDecision_shouldHave_false (k : String) (l : List EvaluationResult) :
    (mkDecision k l).shouldHave = some false ↔
      (∀ e ∈ l, e.satisfied ≠ some true) ∧ ∀ e ∈ l, e.satisfied ≠ none := by
  unfold mkDecision
  simp only []
  split_ifs with h1 h2 <;>
    simp_all [List.any_eq_true]

theorem length_filter_decisions (gs : List (String × List EvaluationResult)) (r : String) :
    ((gs.map fun g => mkDecision g.1 g.2).filter fun d => d.roleId == r).length
      = (keysOf gs).count r := by
  induction gs with
  | nil => simp [keysOf]
  | cons g rest ih =>
    by_cases h : g.1 = r <;>
      simp [keysOf, List.filter_cons, List.count_cons, h, ih]

/-- The group attached to a decision is exactly the evaluations for its
role, in input order. -/
theorem mem_computeRoleDecisions (evaluations : List EvaluationResult)
    (d : RoleDecision) (hd : d ∈ computeRoleDecisions evaluations) :
    d = mkDecision d.roleId (evaluations.filter fun e => e.roleId == d.roleId) := by
  obtain ⟨g, hg, rfl⟩ := List.mem_map.mp hd
  obtain ⟨k, l⟩ := g
  have hlook : lookupG k (groupByRole evaluations) = some l :=
    lookupG_of_mem_nodup _ k l hg (nodup_keysOf_groupByRole evaluations)
  rw [lookupG_groupByRole] at hlook
  by_cases hemp : (evaluations.filter fun e => e.roleId == k).isEmpty
  · rw [if_pos hemp] at hlook
    exact absurd hlook (by simp)
  · rw [if_neg hemp] at hlook
    injection hlook with hlook
    simp only [mkDecision_roleId]
    rw [← hlook]

/-- Demonstration input for the OR semantics: two rules on role-1
evaluating to false and null, one rule on role-2 evaluating to true. -/
def demoEvaluations : List EvaluationResult :=
  [ { ruleId := "r1", roleId := "role-1", satisfied := some false, reason := "f" }
  , { ruleId := "r2", roleId := "role-1", satisfied := none, reason := "n" }
  , { ruleId := "r3", roleId := "role-2", satisfied := some true, reason := "t" } ]

/-- The decision `computeRoleDecisions` produces for role-2 above. -/
def demoDecision : RoleDecision :=
  { roleId := "role-2", shouldHave := some true, matchedRuleIds := ["r3"] }

/-- C2: `computeRoleDecisions` groups the evaluations by role id and
returns exactly one decision per distinct role; for each decision,
`should_have` is `true` iff some evaluation of its group is `true`
(with `matched_rule_ids` exactly the rule ids of the true
evaluations), `null` iff no evaluation is `true` and some is `null`,
and `false` otherwise. -/
theorem computeRoleDecisions_or_semantics (evaluations : List EvaluationResult) :
    (∀ r : String,
        ((computeRoleDecisions evaluations).filter fun d => d.roleId == r).length
          = if r ∈ evaluations.map (·.roleId) then 1 else 0)
    ∧ ∀ d ∈ computeRoleDecisions evaluations,
        (d.shouldHave = some true ↔
          ∃ e ∈ evaluations, e.roleId = d.roleId ∧ e.satisfied = some true)
        ∧ (d.shouldHave = none ↔
            (∀ e ∈ evaluations, e.roleId = d.roleId → e.satisfied ≠ some true)
              ∧ ∃ e ∈ evaluations, e.roleId = d.roleId ∧ e.satisfied = none)
        ∧ (d.shouldHave = some false ↔
            (∀ e ∈ evaluations, e.roleId = d.roleId → e.satisfied ≠ some true)
              ∧ ∀ e ∈ evaluations, e.roleId = d.roleId → e.satisfied ≠ none)
        ∧ d.matchedRuleIds
            = ((evaluations.filter fun e =>
                  e.roleId == d.roleId && e.satisfied == some true).map (·.ruleId)) := by
  constructor
  · intro r
    unfold computeRoleDecisions
    rw [length_filter_decisions]
    by_cases h : r ∈ evaluations.map (·.roleId)
    · rw [if_pos h]
      refine List.count_eq_one_of_mem (nodup_keysOf_groupByRole evaluations) ?_
      rw [mem_keysOf_groupByRole]
      obtain ⟨e, he, hr⟩ := List.mem_map.mp h
      exact ⟨e, he, hr⟩
    · rw [if_neg h, List.count_eq_zero, mem_keysOf_groupByRole]
      rintro ⟨e, he, hr⟩
      exact h (List.mem_map.mpr ⟨e, he, hr⟩)
  · intro d hd
    have hwd := mem_computeRoleDecisions evaluations d hd
    have hmem : ∀ e : EvaluationResult,
        e ∈ (evaluations.filter fun e => e.roleId == d.roleId) ↔
          e ∈ evaluations ∧ e.roleId = d.roleId := by
      intro e
      simp [List.mem_filter]
    have hsh : d.shouldHave
        = (mkDecision d.roleId (evaluations.filter fun e => e.roleId == d.roleId)).shouldHave := by
      rw [← hwd]
    have hmr : d.matchedRuleIds
        = (mkDecision d.roleId (evaluations.filter fun e => e.roleId == d.roleId)).matchedRuleIds := by
      rw [← hwd]
    refine ⟨?_, ?_, ?_, ?_⟩
    · rw [hsh, mkDecision_shouldHave_true]
      constructor
      · rintro ⟨e, he, hsat⟩
        obtain ⟨h1, h2⟩ := (hmem e).mp he
        exact ⟨e, h1, h2, hsat⟩
      · rintro ⟨e, h1, h2, hsat⟩
        exact ⟨e, (hmem e).mpr ⟨h1, h2⟩, hsat⟩
    · rw [hsh, mkDecision_shouldHave_none]
      constructor
      · rintro ⟨hall, e, he, hsat⟩
        obtain ⟨h1, h2⟩ := (hmem e).mp he
        refine ⟨?_, e, h1, h2, hsat⟩
        intro e0 he0 hr0
        exact hall e0 ((hmem e0).mpr ⟨he0, hr0⟩)
      · rintro ⟨hall, e, h1, h2, hsat⟩
        refine ⟨?_, e, (hmem e).mpr ⟨h1, h2⟩, hsat⟩
        intro e0 he0
        obtain ⟨h3, h4⟩ := (hmem e0).mp he0
        exact hall e0 h3 h4
    · rw [hsh, mkDecision_shouldHave_false]
      constructor
      · rintro ⟨hall1, hall2⟩
        constructor
        · intro e0 he0 hr0
          exact hall1 e0 ((hmem e0).mpr ⟨he0, hr0⟩)
        · intro e0 he0 hr0
          exact hall2 e0 ((hmem e0).mpr ⟨he0, hr0⟩)
      · rintro ⟨hall1, hall2⟩
        constructor
        · intro e0 he0
          obtain ⟨h3, h4⟩ := (hmem e0).mp he0
          exact hall1 e0 h3 h4
        · intro e0 he0
          obtain ⟨h3, h4⟩ := (hmem e0).mp he0
          exact hall2 e0 h3 h4
    · rw [hmr]
      unfold mkDecision
      simp only [List.filter_filter]
      congr 1
      exact List.filter_congr fun e _ => Bool.and_comm ..

/-- Witness for C2 at the demonstration input: role-1 gets exactly one
decision, and the role-2 decision is `true` exactly because one of its
evaluations is `true`. -/
theorem computeRoleDecisions_or_semantics_witness :
    (((computeRoleDecisions demoEvaluations).filter fun d => d.roleId == "role-1").length
        = if "role-1" ∈ demoEvaluations.map (·.roleId) then 1 else 0)
    ∧ (demoDecision.shouldHave = some true ↔
        ∃ e ∈ demoEvaluations, e.roleId = demoDecision.roleId ∧ e.satisfied = some true) :=
  ⟨(computeRoleDecisions_or_semantics demoEvaluations).1 "role-1",
   ((computeRoleDecisions_or_semantics demoEvaluations).2 demoDecision (by decide)).1⟩

theorem lookupG_mem {α : Type} (m : List (String × α)) (k : String) (v : α)
    (h : lookupG k m = some v) : (k, v) ∈ m := by
  induction m with
  | nil => simp [lookupG] at h
  | cons kv rest ih =>
    obtain ⟨k0, v0⟩ := kv
    by_cases hk : k0 = k
    · subst hk
      simp only [lookupG, if_pos rfl] at h
      injection h with h
      subst h
      exact List.mem_cons_self ..
    · simp only [lookupG, if_neg hk] at h
      exact List.mem_cons_of_mem _ (ih h)

/-- Witness rule for S1: `TOKEN_AMOUNT` with threshold 100 on mint M. -/
def wRuleAmount : GatingRule :=
  { id := "r1", roleId := "R", type := RuleType.TOKEN_AMOUNT, mint := some "M",
    collection := none, thresholdAmount := some 100, thresholdUsd := none,
    thresholdCount := none, priceAssetId := none, enabled := true }

/-- Witness snapshot: balance of mint M exactly at the threshold. -/
def wSnap : WalletSnapshot :=
  { wallet := "w", tokenBalancesByMint := [("M", 100)], nftCountsByCollection := [("C", 2)] }

/-- C3: `evaluateRules` returns exactly one evaluation per rule, and
`evaluateRule` implements the per-type semantics: `TOKEN_AMOUNT`
compares the balance for the rule's mint (default 0) to the threshold
and is never null (so exact equality satisfies); `TOKEN_USD` is null
exactly when the price for the rule's price asset id is absent, and
otherwise compares balance × price to the USD threshold;
`NFT_COLLECTION` compares the count for the collection (default 0) to
the count threshold and is never null. -/
theorem evaluateRules_per_rule_semantics (rules : List GatingRule)
    (snapshot : WalletSnapshot) (prices : List (String × Rat)) :
    ((evaluateRules rules snapshot prices).length = rules.length
      ∧ ∀ i : Nat, (evaluateRules rules snapshot prices)[i]?
          = (rules[i]?).map fun r => evaluateRule r snapshot prices)
    ∧ ∀ rule : GatingRule,
        (rule.type = RuleType.TOKEN_AMOUNT →
          (evaluateRule rule snapshot prices).satisfied
            = some (decide ((lookupG (rule.mint.getD "") snapshot.tokenBalancesByMint).getD 0
                ≥ rule.thresholdAmount.getD 0)))
        ∧ (rule.type = RuleType.TOKEN_USD →
            ((evaluateRule rule snapshot prices).satisfied = none ↔
                lookupG (rule.priceAssetId.getD "") prices = none)
            ∧ ∀ p : Rat, lookupG (rule.priceAssetId.getD "") prices = some p →
                (evaluateRule rule snapshot prices).satisfied
                  = some (decide
                      ((lookupG (rule.mint.getD "") snapshot.tokenBalancesByMint).getD 0 * p
                        ≥ rule.thresholdUsd.getD 0)))
        ∧ (rule.type = RuleType.NFT_COLLECTION →
            (evaluateRule rule snapshot prices).satisfied
              = some (decide
                  (((lookupG (rule.collection.getD "") snapshot.nftCountsByCollection).getD 0 : Int)
                    ≥ rule.thresholdCount.getD 0))) := by
  refine ⟨⟨?_, ?_⟩, ?_⟩
  · simp [evaluateRules]
  · intro i
    simp [evaluateRules]
  · intro rule
    refine ⟨?_, ?_, ?_⟩
    · intro h
      simp [evaluateRule, h]
    · intro h
      have h1 : rule.type ≠ RuleType.TOKEN_AMOUNT := by
        rw [h]
        intro hc
        cases hc
      constructor
      · cases hl : lookupG (rule.priceAssetId.getD "") prices with
        | none => simp [evaluateRule, h, h1, hl]
        | some p => simp [evaluateRule, h, h1, hl]
      · intro p hp
        simp [evaluateRule, h, h1, hp]
    · intro h
      have h1 : rule.type ≠ RuleType.TOKEN_AMOUNT := by
        rw [h]
        intro hc
        cases hc
      have h2 : rule.type ≠ RuleType.TOKEN_USD := by
        rw [h]
        intro hc
        cases hc
      simp [evaluateRule, h1, h2]

/-- Witness for C3: the S1 scenario, balance exactly at the threshold
(`satisfied = true` at equality, not null). -/
theorem evaluateRules_per_rule_semantics_witness :
    wRuleAmount.type = RuleType.TOKEN_AMOUNT
    ∧ (evaluateRule wRuleAmount wSnap []).satisfied
        = some (decide ((lookupG (wRuleAmount.mint.getD "") wSnap.tokenBalancesByMint).getD 0
            ≥ wRuleAmount.thresholdAmount.getD 0))
    ∧ (evaluateRule wRuleAmount wSnap []).satisfied = some true :=
  ⟨rfl, ((evaluateRules_per_rule_semantics [wRuleAmount] wSnap []).2 wRuleAmount).1 rfl,
    by decide⟩

/-- C9: the evaluator's defaulting for null columns: a null numeric
threshold behaves as 0, a null mint or collection behaves as the empty
string, a `TOKEN_AMOUNT` (with non-negative balances) or
`NFT_COLLECTION` rule with a null threshold is always satisfied, and a
rule whose type is neither `TOKEN_AMOUNT` nor `TOKEN_USD` is evaluated
under `NFT_COLLECTION` semantics. -/
theorem evaluateRule_null_defaults (rule : GatingRule) (snapshot : WalletSnapshot)
    (prices : List (String × Rat)) :
    (rule.thresholdAmount = none →
      evaluateRule rule snapshot prices
        = evaluateRule { rule with thresholdAmount := some 0 } snapshot prices)
    ∧ (rule.thresholdUsd = none →
        evaluateRule rule snapshot prices
          = evaluateRule { rule with thresholdUsd := some 0 } snapshot prices)
    ∧ (rule.thresholdCount = none →
        evaluateRule rule snapshot prices
          = evaluateRule { rule with thresholdCount := some 0 } snapshot prices)
    ∧ (rule.mint = none →
        evaluateRule rule snapshot prices
          = evaluateRule { rule with mint := some "" } snapshot prices)
    ∧ (rule.collection = none →
        evaluateRule rule snapshot prices
          = evaluateRule { rule with collection := some "" } snapshot prices)
    ∧ (rule.type = RuleType.TOKEN_AMOUNT → rule.thresholdAmount = none →
        (∀ b ∈ snapshot.tokenBalancesByMint, 0 ≤ b.2) →
        (evaluateRule rule snapshot prices).satisfied = some true)
    ∧ (rule.type = RuleType.NFT_COLLECTION → rule.thresholdCount = none →
        (evaluateRule rule snapshot prices).satisfied = some true)
    ∧ (rule.type ≠ RuleType.TOKEN_AMOUNT → rule.type ≠ RuleType.TOKEN_USD →
        evaluateRule rule snapshot prices
          = evaluateRule { rule with type := RuleType.NFT_COLLECTION } snapshot prices) := by
  refine ⟨?_, ?_, ?_, ?_, ?_, ?_, ?_, ?_⟩
  · intro h
    simp [evaluateRule, h]
  · intro h
    simp [evaluateRule, h]
  · intro h
    simp [evaluateRule, h]
  · intro h
    simp [evaluateRule, h]
  · intro h
    simp [evaluateRule, h]
  · intro h1 h2 h3
    have hs : (evaluateRule rule snapshot prices).satisfied
        = some (decide
            ((lookupG (rule.mint.getD "") snapshot.tokenBalancesByMint).getD 0 ≥ (0 : Rat))) := by
      simp [evaluateRule, h1, h2]
    rw [hs, Option.some_inj, decide_eq_true_eq, ge_iff_le]
    cases hb : lookupG (rule.mint.getD "") snapshot.tokenBalancesByMint with
    | none => simp
    | some b =>
      simpa using h3 _ (lookupG_mem _ _ _ hb)
  · intro h1 h2
    have ha : rule.type ≠ RuleType.TOKEN_AMOUNT := by
      rw [h1]
      intro hc
      cases hc
    have hu : rule.type ≠ RuleType.TOKEN_USD := by
      rw [h1]
      intro hc
      cases hc
    have hs : (evaluateRule rule snapshot prices).satisfied
        = some (decide
            ((((lookupG (rule.collection.getD "") snapshot.nftCountsByCollection).getD 0 : Int))
              ≥ (0 : Int))) := by
      simp [evaluateRule, ha, hu, h2]
    rw [hs, Option.some_inj, decide_eq_true_eq, ge_iff_le]
    exact Int.natCast_nonneg _
  · intro h1 h2
    cases rule with
    | mk i r ty m c ta tu tc pa en =>
      cases ty with
      | TOKEN_AMOUNT => exact absurd rfl h1
      | TOKEN_USD => exact absurd rfl h2
      | NFT_COLLECTION => rfl

/-- Witness rule for C9: a `TOKEN_AMOUNT` rule whose threshold column
is null, on a mint absent from the snapshot. -/
def wRuleNullThreshold : GatingRule :=
  { wRuleAmount with id := "r-null", thresholdAmount := none, mint := some "absent" }

/-- Witness for C9: the null-threshold `TOKEN_AMOUNT` rule is satisfied
on a snapshot with non-negative balances. -/
theorem evaluateRule_null_defaults_witness :
    wRuleNullThreshold.thresholdAmount = none
    ∧ evaluateRule wRuleNullThreshold wSnap []
        = evaluateRule { wRuleNullThreshold with thresholdAmount := some 0 } wSnap []
    ∧ (evaluateRule wRuleNullThreshold wSnap []).satisfied = some true :=
  ⟨rfl,
    (evaluateRule_null_defaults wRuleNullThreshold wSnap []).1 rfl,
    (evaluateRule_null_defaults wRuleNullThreshold wSnap []).2.2.2.2.2.1 rfl rfl
      (by decide)⟩

/-! ## Reconciliation worker (gatingWorker: `runUserCheck`,
`syncRoleDecision`, `canManageRole`)

The Discord client, the database and the holdings/price services are
externals; a `CheckWorld` supplies the outcome of every external call
a single `runUserCheck` performs, and the check's effects (role
mutations, audit writes, the `last_checked_at` update) are returned as
an ordered event trace. -/

/-- `AuditAction` enum of the Prisma schema. -/
inductive AuditAction
  | ROLE_ADDED
  | ROLE_REMOVED
  | VERIFY_SUCCESS
  | VERIFY_REPLACED
  | VERIFY_UNLINKED
deriving DecidableEq, Repr

/-- An `audit_log` row as written by `writeAuditLog`. -/
structure AuditEntry where
  guildId : String
  discordUserId : String
  roleId : String
  action : AuditAction
  reason : String
  ruleId : Option String
deriving DecidableEq, Repr

/-- One observable side effect of a worker check. -/
inductive Event
  | roleAdd (roleId : String)
  | roleRemove (roleId : String)
  | audit (entry : AuditEntry)
  | touchLastChecked
deriving DecidableEq, Repr

/-- A Discord role as the worker sees it (`guild.roles.fetch`):
snowflake id (numeric) and hierarchy position. -/
structure RoleInfo where
  id : Nat
  position : Int
deriving DecidableEq, Repr

/-- discord.js `Role.comparePositionTo`: position difference, ties
broken by snowflake id (the older role ranks higher). -/
def comparePositionTo (a b : RoleInfo) : Int :=
  if a.position = b.position then (b.id : Int) - (a.id : Int)
  else a.position - b.position

/-- The bot's own guild member (`guild.members.me`): role-management
permission bit and highest role. -/
structure BotMember where
  hasManageRoles : Bool
  highestRole : RoleInfo
deriving DecidableEq, Repr

/-- A guild as the worker sees it: the bot member (none when
`guild.members.me` is null) and the role lookup backing
`guild.roles.fetch` (none = missing or fetch error). -/
structure GuildView where
  botMember : Option BotMember
  roles : List (String × RoleInfo)
deriving DecidableEq, Repr

/-- The target member: its current role cache (`member.roles.cache`). -/
structure MemberView where
  roleIds : List String
deriving DecidableEq, Repr

/-- `canManageRole` of the worker: bot member present, has the
ManageRoles permission, and its highest role compares strictly above
the target. -/
def canManageRole (guild : GuildView) (role : RoleInfo) : Bool :=
  match guild.botMember with
  | none => false
  | some botMember =>
    botMember.hasManageRoles && decide (comparePositionTo botMember.highestRole role > 0)

/-- Result of an external fetch that the source wraps in try/catch:
`failure` models a thrown error. -/
inductive FetchResult (α : Type)
  | ok (value : α)
  | failure
deriving DecidableEq, Repr

/-- The stored wallet link row the check operates on. -/
structure WalletLinkRow where
  id : String
  walletPubkey : String
deriving DecidableEq, Repr

/-- Outcomes of every external interaction of one `runUserCheck` call:
the enabled rules, the wallet link lookup, the price fetch, the guild
and member fetches, the snapshot fetch, and which role add/remove
calls would throw. -/
structure CheckWorld where
  rules : List GatingRule
  walletLink : Option WalletLinkRow
  priceFetch : FetchResult (List (String × Rat))
  guildFetch : Option GuildView
  memberFetch : Option MemberView
  snapshotFetch : FetchResult WalletSnapshot
  roleAddFailures : List String
  roleRemoveFailures : List String

/-- `syncRoleDecision`: skip indeterminate decisions, skip missing or
unmanageable roles, then add/remove the role (with its audit entry)
only when membership disagrees with the decision; a throwing add or
remove is caught and yields no events. -/
def syncRoleDecision (world : CheckWorld) (guild : GuildView) (member : MemberView)
    (guildId discordUserId : String) (decision : RoleDecision)
    (evaluations : List EvaluationResult) : List Event :=
  match decision.shouldHave with
  | none => []
  | some shouldHave =>
    match lookupG decision.roleId guild.roles with
    | none => []
    | some role =>
      if !canManageRole guild role then []
      else
        let currentlyHasRole := member.roleIds.contains decision.roleId
        if shouldHave && !currentlyHasRole then
          if world.roleAddFailures.contains decision.roleId then []
          else
            let matched := evaluations.find? fun e =>
              e.roleId == decision.roleId && e.satisfied == some true
            [ Event.roleAdd decision.roleId
            , Event.audit
                { guildId := guildId
                  discordUserId := discordUserId
                  roleId := decision.roleId
                  action := AuditAction.ROLE_ADDED
                  reason := ((matched.map (·.reason)).getD "role added by gating")
                  ruleId := matched.map (·.ruleId) } ]
        else if !shouldHave && currentlyHasRole then
          if world.roleRemoveFailures.contains decision.roleId then []
          else
            [ Event.roleRemove decision.roleId
            , Event.audit
                { guildId := guildId
                  discordUserId := discordUserId
                  roleId := decision.roleId
                  action := AuditAction.ROLE_REMOVED
                  reason := "no active rule satisfied for role"
                  ruleId := none } ]
        else []

/-- The decision loop of `runUserCheck`: each decision is synced in
order and the event traces concatenate. -/
def syncAllDecisions (world : CheckWorld) (guild : GuildView) (member : MemberView)
    (guildId discordUserId : String) (decisions : List RoleDecision)
    (evaluations : List EvaluationResult) : List Event :=
  (decisions.map fun d =>
    syncRoleDecision world guild member guildId discordUserId d evaluations).flatten

/-- `GatingWorker.runUserCheck` as an event trace: early return when
there are no enabled rules, no wallet link, or the guild or member
fetch fails; a failed price fetch is caught and leaves the price map
empty; a failed snapshot fetch updates `last_checked_at` and returns
(fail-open); otherwise evaluate, decide, sync every decision, and
update `last_checked_at`. -/
def runUserCheck (world : CheckWorld) (guildId discordUserId : String) : List Event :=
  if world.rules.isEmpty then []
  else
    match world.walletLink with
    | none => []
    | some _ =>
      let prices :=
        match world.priceFetch with
        | FetchResult.ok m => m
        | FetchResult.failure => []
      match world.guildFetch with
      | none => []
      | some guild =>
        match world.memberFetch with
        | none => []
        | some member =>
          match world.snapshotFetch with
          | FetchResult.failure => [Event.touchLastChecked]
          | FetchResult.ok snapshot =>
            let evaluations := evaluateRules world.rules snapshot prices
            let decisions := computeRoleDecisions evaluations
            syncAllDecisions world guild member guildId discordUserId decisions evaluations
              ++ [Event.touchLastChecked]

/-- Whether an event is a mutation of, or a role audit entry for, the
given role. -/
def eventMentionsRole (r : String) : Event → Bool
  | Event.roleAdd x => x == r
  | Event.roleRemove x => x == r
  | Event.audit a =>
    a.roleId == r
      && (a.action == AuditAction.ROLE_ADDED || a.action == AuditAction.ROLE_REMOVED)
  | Event.touchLastChecked => false

theorem sync_events_only_own_role (world : CheckWorld) (guild : GuildView)
    (member : MemberView) (guildId discordUserId r : String) (decision : RoleDecision)
    (evaluations : List EvaluationResult) (e : Event)
    (he : e ∈ syncRoleDecision world guild member guildId discordUserId decision evaluations)
    (hm : eventMentionsRole r e = true) : decision.roleId = r := by
  unfold syncRoleDecision at he
  cases hsh : decision.shouldHave with
  | none =>
    rw [hsh] at he
    simp at he
  | some shouldHave =>
    rw [hsh] at he
    cases hlook : lookupG decision.roleId guild.roles with
    | none =>
      rw [hlook] at he
      simp at he
    | some role =>
      rw [hlook] at he
      by_cases hman : canManageRole guild role
      · simp only [hman, Bool.not_true, Bool.false_eq_true, if_false] at he
        split_ifs at he <;> simp at he <;> rcases he with he | he <;> subst he <;>
          simpa [eventMentionsRole] using hm
      · simp [hman] at he

/-- C1: fail-open. In a per-member check that reached the snapshot
fetch (enabled rules exist, the wallet link, guild and member all
resolve) and in which that fetch throws, the worker performs no role
mutation, writes no audit entry, and still updates the member's
`last_checked_at` — the trace is exactly the `last_checked_at`
update. -/
theorem runUserCheck_fail_open (world : CheckWorld) (guildId discordUserId : String)
    (h1 : world.rules.isEmpty = false)
    (h2 : world.walletLink.isSome = true)
    (h3 : world.guildFetch.isSome = true)
    (h4 : world.memberFetch.isSome = true)
    (h5 : world.snapshotFetch = FetchResult.failure) :
    runUserCheck world guildId discordUserId = [Event.touchLastChecked] := by
  obtain ⟨link, hlink⟩ := Option.isSome_iff_exists.mp h2
  obtain ⟨guild, hguild⟩ := Option.isSome_iff_exists.mp h3
  obtain ⟨member, hmember⟩ := Option.isSome_iff_exists.mp h4
  simp [runUserCheck, h1, hlink, hguild, hmember, h5]

/-- Fail-open witness world: one enabled rule, a linked wallet, a
resolvable guild and member, and a snapshot fetch that throws. -/
def wFailWorld : CheckWorld :=
  { rules := [wRuleAmount]
    walletLink := some { id := "wl1", walletPubkey := "PK" }
    priceFetch := FetchResult.failure
    guildFetch := some { botMember := none, roles := [] }
    memberFetch := some { roleIds := [] }
    snapshotFetch := FetchResult.failure
    roleAddFailures := []
    roleRemoveFailures := [] }

/-- Witness for C1: the fail-open world produces exactly the
`last_checked_at` update. -/
theorem runUserCheck_fail_open_witness :
    runUserCheck wFailWorld "G" "U" = [Event.touchLastChecked] :=
  runUserCheck_fail_open wFailWorld "G" "U" (by decide) (by decide) (by decide)
    (by decide) rfl

/-- C6: the manageability gate. For a role the bot cannot manage
(`canManageRole` false): (1) syncing any decision for that role
produces no events — no `ROLE_ADDED`/`ROLE_REMOVED` mutation or audit
entry; (2) dropping such a decision from the decision list leaves the
trace of the remaining decisions unchanged (the role is skipped
without affecting the others); (3) no event of the whole check
mentions that role. -/
theorem sync_manageability_gate (world : CheckWorld) (guild : GuildView)
    (member : MemberView) (guildId discordUserId roleTarget : String) (role : RoleInfo)
    (evaluations : List EvaluationResult)
    (hrole : lookupG roleTarget guild.roles = some role)
    (hcant : canManageRole guild role = false) :
    (∀ decision : RoleDecision, decision.roleId = roleTarget →
        syncRoleDecision world guild member guildId discordUserId decision evaluations = [])
    ∧ (∀ ds1 ds2 : List RoleDecision, ∀ d : RoleDecision, d.roleId = roleTarget →
        syncAllDecisions world guild member guildId discordUserId (ds1 ++ d :: ds2) evaluations
          = syncAllDecisions world guild member guildId discordUserId (ds1 ++ ds2) evaluations)
    ∧ (world.guildFetch = some guild → world.memberFetch = some member →
        ∀ e ∈ runUserCheck world guildId discordUserId,
          eventMentionsRole roleTarget e = false) := by
  have hskip : ∀ (evals : List EvaluationResult) (decision : RoleDecision),
      decision.roleId = roleTarget →
      syncRoleDecision world guild member guildId discordUserId decision evals = [] := by
    intro evals d hd
    unfold syncRoleDecision
    cases hsh : d.shouldHave with
    | none => rfl
    | some shouldHave =>
      rw [hd, hrole]
      simp [hcant]
  refine ⟨hskip evaluations, ?_, ?_⟩
  · intro ds1 ds2 d hd
    simp [syncAllDecisions, hskip evaluations d hd]
  · intro hg hm e he
    cases hev : eventMentionsRole roleTarget e
    · rfl
    · exfalso
      unfold runUserCheck at he
      by_cases hrul : world.rules.isEmpty
      · simp [hrul] at he
      · rw [Bool.not_eq_true] at hrul
        cases hwl : world.walletLink with
        | none =>
          rw [hrul, hwl] at he
          simp at he
        | some link =>
          rw [hrul, hwl, hg, hm] at he
          cases hsf : world.snapshotFetch with
          | failure =>
            rw [hsf] at he
            simp at he
            rw [he] at hev
            simp [eventMentionsRole] at hev
          | ok snapshot =>
            rw [hsf] at he
            simp only [Bool.false_eq_true, if_false, List.mem_append] at he
            rcases he with he | he
            · unfold syncAllDecisions at he
              obtain ⟨l, hl, hel⟩ := List.mem_flatten.mp he
              obtain ⟨d, _, rfl⟩ := List.mem_map.mp hl
              by_cases hdr : d.roleId = roleTarget
              · rw [hskip _ d hdr] at hel
                simp at hel
              · exact hdr
                  (sync_events_only_own_role world guild member guildId discordUserId
                    roleTarget d _ e hel hev)
            · simp at he
              rw [he] at hev
              simp [eventMentionsRole] at hev

/-- Witness world for the manageability gate: the guild knows role R
but the bot member is absent, so `canManageRole` is false. -/
def wGateGuild : GuildView :=
  { botMember := none, roles := [("R", { id := 5, position := 1 })] }

/-- A decision that would remove role R from a member that has it. -/
def wGateDecision : RoleDecision :=
  { roleId := "R", shouldHave := some false, matchedRuleIds := [] }

/-- Witness for C6: syncing a remove decision for the unmanageable
role R produces no mutation and no audit entry. -/
theorem sync_manageability_gate_witness :
    syncRoleDecision wFailWorld wGateGuild { roleIds := ["R"] } "G" "U" wGateDecision [] = [] :=
  (sync_manageability_gate wFailWorld wGateGuild { roleIds := ["R"] } "G" "U" "R"
      { id := 5, position := 1 } [] (by decide) (by decide)).1 wGateDecision rfl

/-! ## Verification protocol (src/services/verifyService.ts)

`submitVerifySignature` is modelled as a small-step program over a
shared database state, one step per database interaction, so that its
sequential behaviour and the interleaving of two concurrent submits
can both be examined.  Base58/Ed25519 verification is collapsed into a
world-supplied oracle `sigCheck message signature pubkey`; every
rejection of the session itself (missing, already used, expired) is
the `SESSION_INVALID` class of the error taxonomy.  Timestamps are
integer milliseconds. -/

/-- A `verify_sessions` row. -/
structure SessionRow where
  id : String
  guildId : String
  discordUserId : String
  nonce : String
  challengeMessage : String
  expiresAt : Int
  usedAt : Option Int
deriving DecidableEq, Repr

/-- A `wallet_links` row (fields the protocol reads and writes). -/
structure LinkRow where
  id : String
  guildId : String
  discordUserId : String
  walletPubkey : String
  verifiedAt : Int
deriving DecidableEq, Repr

/-- The database state shared by the protocol operations: the session
addressed by the token (looked up by id), the wallet-link table and
the audit log. -/
structure Db where
  session : Option SessionRow
  links : List LinkRow
  audits : List AuditEntry
deriving DecidableEq, Repr

/-- `findUnique` on the `(guild_id, discord_user_id)` key. -/
def findUniqueLink (links : List LinkRow) (guildId discordUserId : String) :
    Option LinkRow :=
  links.find? fun l => l.guildId == guildId && l.discordUserId == discordUserId

/-- Prisma upsert on the `(guild_id, discord_user_id)` key: update the
pubkey and `verified_at` of the existing row, or create a new row. -/
def upsertLink (links : List LinkRow) (guildId discordUserId walletPubkey : String)
    (now : Int) : List LinkRow :=
  if (links.any fun l => l.guildId == guildId && l.discordUserId == discordUserId) then
    links.map fun l =>
      if l.guildId == guildId && l.discordUserId == discordUserId then
        { l with walletPubkey := walletPubkey, verifiedAt := now }
      else l
  else
    links ++ [{ id := guildId ++ ":" ++ discordUserId, guildId := guildId,
                discordUserId := discordUserId, walletPubkey := walletPubkey,
                verifiedAt := now }]

/-- Error classes surfaced by `submitVerifySignature` (spec taxonomy):
a missing, used or expired session is `SESSION_INVALID`; a failed
signature check is `INVALID_SIGNATURE`. -/
inductive SubmitError
  | sessionInvalid
  | invalidSignature
deriving DecidableEq, Repr

/-- The world around a submit: the clock and the signature oracle
(message, base58 signature, wallet pubkey). -/
structure VerifyWorld where
  now : Int
  sigCheck : String → String → String → Bool

/-- Input of one submit call: the session id recovered from the
verified token, plus the wallet pubkey and signature. -/
structure SubmitInput where
  sessionId : String
  walletPubkey : String
  signatureBase58 : String
deriving DecidableEq, Repr

/-- `Boolean(existing && existing.walletPubkey !== input.walletPubkey)`:
whether the submit replaced a different wallet. -/
def replacedOf (existing : Option LinkRow) (input : SubmitInput) : Bool :=
  match existing with
  | some ex => ex.walletPubkey != input.walletPubkey
  | none => false

/-- The `VERIFY_REPLACED` / `VERIFY_SUCCESS` audit entry a successful
submit writes. -/
def submitAudit (s : SessionRow) (input : SubmitInput) (existing : Option LinkRow) :
    AuditEntry :=
  let replaced := replacedOf existing input
  { guildId := s.guildId
    discordUserId := s.discordUserId
    roleId := "-"
    action := if replaced then AuditAction.VERIFY_REPLACED else AuditAction.VERIFY_SUCCESS
    reason := if replaced then
        "wallet replaced " ++ ((existing.map (·.walletPubkey)).getD "undefined")
          ++ " -> " ++ input.walletPubkey
      else "wallet verified " ++ input.walletPubkey
    ruleId := none }

/-- Local state of one in-flight submit: program counter, the session
copy read at step 0, the pre-existing link read at step 1, and the
final outcome (`true` in `Except.ok` means the link replaced a
different wallet). -/
structure SubmitProc where
  input : SubmitInput
  pc : Nat
  sess : Option SessionRow
  existing : Option LinkRow
  result : Option (Except SubmitError Bool)
deriving Repr

/-- A submit about to run. -/
def initSubmit (input : SubmitInput) : SubmitProc :=
  { input := input, pc := 0, sess := none, existing := none, result := none }

/-- One atomic database interaction of `submitVerifySignature`, in
source order: 0 — read the session, reject used/expired/missing,
verify the signature; 1 — read the existing wallet link; 2 — set
`used_at = now` on the session; 3 — upsert the wallet link; 4 — write
the `VERIFY_REPLACED`/`VERIFY_SUCCESS` audit entry and succeed. -/
def submitStep (w : VerifyWorld) (db : Db) (p : SubmitProc) : Db × SubmitProc :=
  match p.pc with
  | 0 =>
    match db.session with
    | none => (db, { p with pc := 5, result := some (Except.error SubmitError.sessionInvalid) })
    | some s =>
      if s.usedAt.isSome then
        (db, { p with pc := 5, result := some (Except.error SubmitError.sessionInvalid) })
      else if s.expiresAt < w.now then
        (db, { p with pc := 5, result := some (Except.error SubmitError.sessionInvalid) })
      else if !w.sigCheck s.challengeMessage p.input.signatureBase58 p.input.walletPubkey then
        (db, { p with pc := 5, result := some (Except.error SubmitError.invalidSignature) })
      else
        (db, { p with pc := 1, sess := some s })
  | 1 =>
    match p.sess with
    | none => (db, { p with pc := 5 })
    | some s =>
      (db, { p with pc := 2, existing := findUniqueLink db.links s.guildId s.discordUserId })
  | 2 =>
    ({ db with session := db.session.map fun s => { s with usedAt := some w.now } },
      { p with pc := 3 })
  | 3 =>
    match p.sess with
    | none => (db, { p with pc := 5 })
    | some s =>
      ({ db with links := upsertLink db.links s.guildId s.discordUserId
                    p.input.walletPubkey w.now },
        { p with pc := 4 })
  | 4 =>
    match p.sess with
    | none => (db, { p with pc := 5 })
    | some s =>
      ({ db with audits := db.audits ++ [submitAudit s p.input p.existing] },
        { p with pc := 5, result := some (Except.ok (replacedOf p.existing p.input)) })
  | _ => (db, p)

/-- Run one submit sequentially for `n` steps (5 steps complete it;
further steps are no-ops). -/
def submitSteps (w : VerifyWorld) : Nat → Db × SubmitProc → Db × SubmitProc
  | 0, st => st
  | n + 1, st => submitSteps w n (submitStep w st.1 st.2)

/-- A full sequential `submitVerifySignature` call. -/
def submitRun (w : VerifyWorld) (db : Db) (input : SubmitInput) : Db × SubmitProc :=
  submitSteps w 5 (db, initSubmit input)

/-- Interleave two submits A and B over the shared database:
`true` steps A, `false` steps B. -/
def runSchedule (w : VerifyWorld) : List Bool → Db × SubmitProc × SubmitProc →
    Db × SubmitProc × SubmitProc
  | [], st => st
  | b :: rest, (db, pa, pb) =>
    if b then
      let (db2, pa2) := submitStep w db pa
      runSchedule w rest (db2, pa2, pb)
    else
      let (db2, pb2) := submitStep w db pb
      runSchedule w rest (db2, pa, pb2)

/-- True when the submit finished successfully. -/
def submitSucceeded (p : SubmitProc) : Bool :=
  match p.result with
  | some (Except.ok _) => true
  | _ => false

/-- `unlinkWallet`: look up the link for the pair; when absent return
`deleted = false` without touching anything; otherwise delete the row
by id, write the `VERIFY_UNLINKED` audit entry and return the wallet. -/
def unlinkWallet (db : Db) (guildId discordUserId : String) :
    (Bool × Option String) × Db :=
  match findUniqueLink db.links guildId discordUserId with
  | none => ((false, none), db)
  | some existing =>
    ((true, some existing.walletPubkey),
      { db with
          links := db.links.filter fun l => !(l.id == existing.id)
          audits := db.audits ++
            [ { guildId := guildId
                discordUserId := discordUserId
                roleId := "-"
                action := AuditAction.VERIFY_UNLINKED
                reason := "wallet unlinked " ++ existing.walletPubkey
                ruleId := none } ] })

/-- The world of the concrete race run: clock at 1000 and a signature
oracle that accepts (both submits carry valid signatures). -/
def wRace : VerifyWorld := { now := 1000, sigCheck := fun _ _ _ => true }

/-- A fresh, unexpired, unused session. -/
def sRace : SessionRow :=
  { id := "sess1", guildId := "G", discordUserId := "U", nonce := "n",
    challengeMessage := "msg", expiresAt := 2000, usedAt := none }

/-- Initial database: the fresh session, no links, no audit entries. -/
def dbRace : Db := { session := some sRace, links := [], audits := [] }

/-- Submit A: wallet PKA. -/
def inRaceA : SubmitInput :=
  { sessionId := "sess1", walletPubkey := "PKA", signatureBase58 := "sigA" }

/-- Submit B: wallet PKB, same session token. -/
def inRaceB : SubmitInput :=
  { sessionId := "sess1", walletPubkey := "PKB", signatureBase58 := "sigB" }

/-- The racing interleaving: A reads the session, B reads the session
(both still see `used_at = null`), then A finishes, then B finishes. -/
def raceSchedule : List Bool :=
  [true, false, true, true, true, true, false, false, false, false]

/-- C4 fails on the code: `submitVerifySignature` checks `used_at` with
a plain read and then sets it with an unconditional update, so two
concurrent submits that both read the session before either marks it
used BOTH succeed — the loser does not fail with `SESSION_INVALID`.
This theorem evaluates the two-submit interleaving `raceSchedule` on a
valid session and shows both calls report success. -/
theorem submit_race_both_succeed :
    submitSucceeded
        (runSchedule wRace raceSchedule (dbRace, initSubmit inRaceA, initSubmit inRaceB)).2.1
      = true
    ∧ submitSucceeded
        (runSchedule wRace raceSchedule (dbRace, initSubmit inRaceA, initSubmit inRaceB)).2.2
      = true := by
  decide

theorem submitRun_rejected_used (w : VerifyWorld) (db : Db) (input : SubmitInput)
    (s1 : SessionRow) (t : Int) (hs : db.session = some s1) (hu : s1.usedAt = some t) :
    submitRun w db input
      = (db, { initSubmit input with
               pc := 5
               result := some (Except.error SubmitError.sessionInvalid) }) := by
  simp [submitRun, submitSteps, submitStep, initSubmit, hs, hu]

theorem submitRun_rejected_expired (w : VerifyWorld) (db : Db) (input : SubmitInput)
    (s1 : SessionRow) (hs : db.session = some s1) (hu : s1.usedAt = none)
    (he : s1.expiresAt < w.now) :
    submitRun w db input
      = (db, { initSubmit input with
               pc := 5
               result := some (Except.error SubmitError.sessionInvalid) }) := by
  simp [submitRun, submitSteps, submitStep, initSubmit, hs, hu, he]

theorem submitSteps_three (w : VerifyWorld) (db : Db) (input : SubmitInput)
    (s : SessionRow) (hs : db.session = some s) (hu : s.usedAt = none)
    (he : ¬ s.expiresAt < w.now)
    (hsig : w.sigCheck s.challengeMessage input.signatureBase58 input.walletPubkey = true) :
    submitSteps w 3 (db, initSubmit input)
      = ({ db with session := some { s with usedAt := some w.now } },
         { input := input
           pc := 3
           sess := some s
           existing := findUniqueLink db.links s.guildId s.discordUserId
           result := none }) := by
  simp [submitSteps, submitStep, initSubmit, hs, hu, he, hsig]

theorem submitRun_success (w : VerifyWorld) (db : Db) (input : SubmitInput)
    (s : SessionRow) (hs : db.session = some s) (hu : s.usedAt = none)
    (he : ¬ s.expiresAt < w.now)
    (hsig : w.sigCheck s.challengeMessage input.signatureBase58 input.walletPubkey = true) :
    submitRun w db input
      = ({ session := some { s with usedAt := some w.now }
           links := upsertLink db.links s.guildId s.discordUserId input.walletPubkey w.now
           audits := db.audits
             ++ [submitAudit s input (findUniqueLink db.links s.guildId s.discordUserId)] },
         { input := input
           pc := 5
           sess := some s
           existing := findUniqueLink db.links s.guildId s.discordUserId
           result := some (Except.ok
             (replacedOf (findUniqueLink db.links s.guildId s.discordUserId) input)) }) := by
  simp [submitRun, submitSteps, submitStep, initSubmit, hs, hu, he, hsig]

/-- C5: session consumption is checked before anything else and
performed before the upsert. For a valid session: the submit succeeds;
after its third step `used_at` is already set while the wallet-link
table is still untouched (used-before-upsert); any later submit
presenting the same token fails with `SESSION_INVALID` and leaves the
database — in particular the stored wallet link — unchanged; and a
submit against an expired session is rejected the same way. -/
theorem submit_replay_rejected (w : VerifyWorld) (db : Db) (input input2 : SubmitInput)
    (s : SessionRow) (hs : db.session = some s) (hu : s.usedAt = none)
    (he : ¬ s.expiresAt < w.now)
    (hsig : w.sigCheck s.challengeMessage input.signatureBase58 input.walletPubkey = true) :
    (submitSucceeded (submitRun w db input).2 = true)
    ∧ ((submitSteps w 3 (db, initSubmit input)).1.session
          = some { s with usedAt := some w.now }
        ∧ (submitSteps w 3 (db, initSubmit input)).1.links = db.links)
    ∧ ((submitRun w (submitRun w db input).1 input2).2.result
          = some (Except.error SubmitError.sessionInvalid)
        ∧ (submitRun w (submitRun w db input).1 input2).1 = (submitRun w db input).1)
    ∧ (∀ (db1 : Db) (s1 : SessionRow), db1.session = some s1 → s1.usedAt = none →
        s1.expiresAt < w.now →
        (submitRun w db1 input2).2.result = some (Except.error SubmitError.sessionInvalid)
        ∧ (submitRun w db1 input2).1 = db1) := by
  have hrun := submitRun_success w db input s hs hu he hsig
  refine ⟨?_, ?_, ?_, ?_⟩
  · rw [hrun]
    rfl
  · rw [submitSteps_three w db input s hs hu he hsig]
    exact ⟨rfl, rfl⟩
  · have hs2 : (submitRun w db input).1.session = some { s with usedAt := some w.now } := by
      rw [hrun]
    rw [submitRun_rejected_used w (submitRun w db input).1 input2
      { s with usedAt := some w.now } w.now hs2 rfl]
    exact ⟨rfl, rfl⟩
  · intro db1 s1 h1 h2 h3
    rw [submitRun_rejected_expired w db1 input2 s1 h1 h2 h3]
    exact ⟨rfl, rfl⟩

/-- Witness for C5: on the concrete fresh session, submit A succeeds
and the replay of the same token (submit B) fails `SESSION_INVALID`. -/
theorem submit_replay_rejected_witness :
    submitSucceeded (submitRun wRace dbRace inRaceA).2 = true
    ∧ (submitRun wRace (submitRun wRace dbRace inRaceA).1 inRaceB).2.result
        = some (Except.error SubmitError.sessionInvalid) :=
  ⟨(submit_replay_rejected wRace dbRace inRaceA inRaceB sRace rfl rfl (by decide) rfl).1,
   (submit_replay_rejected wRace dbRace inRaceA inRaceB sRace rfl rfl (by decide) rfl).2.2.1.1⟩

/-- C10: `unlinkWallet` with no stored link for the pair is a complete
no-op — it returns `deleted = false`, deletes nothing and writes no
audit entry; conversely any audit write implies a link existed and was
deleted (returning its wallet). -/
theorem unlinkWallet_noop_when_missing (db : Db) (guildId discordUserId : String) :
    (findUniqueLink db.links guildId discordUserId = none →
      unlinkWallet db guildId discordUserId = ((false, none), db))
    ∧ ((unlinkWallet db guildId discordUserId).2.audits ≠ db.audits →
        ∃ l : LinkRow, findUniqueLink db.links guildId discordUserId = some l
          ∧ (unlinkWallet db guildId discordUserId).1 = (true, some l.walletPubkey)) := by
  cases hf : findUniqueLink db.links guildId discordUserId with
  | none =>
    constructor
    · intro _
      simp [unlinkWallet, hf]
    · intro hne
      exact absurd (by simp [unlinkWallet, hf]) hne
  | some l =>
    constructor
    · intro hc
      cases hc
    · intro _
      exact ⟨l, rfl, by simp [unlinkWallet, hf]⟩

/-- Witness for C10: unlinking on an empty link table is a no-op. -/
theorem unlinkWallet_noop_when_missing_witness :
    unlinkWallet { session := none, links := [], audits := [] } "G" "U"
      = ((false, none), { session := none, links := [], audits := [] }) :=
  (unlinkWallet_noop_when_missing { session := none, links := [], audits := [] } "G" "U").1 rfl

/-! ## Price cache (`CoinGeckoClient.getUsdPrices`)

The Prisma `price_cache` table (primary key `asset_id`) is a row list,
the upstream JSON response is a world-supplied per-id quote, and the
function additionally returns the list of upstream calls it performed
(each with the ids it batched) so that cache hits can be seen to cause
no fetch.  A non-ok upstream response makes the whole call throw
(`Except.error`). -/

/-- A `price_cache` row. -/
structure PriceRow where
  assetId : String
  priceUsd : Rat
  fetchedAt : Int
deriving DecidableEq, Repr

/-- What the upstream JSON holds for one id: `json[id]?.usd` is a
finite number, a non-finite number, or missing / not a number. -/
inductive UpQuote
  | absent
  | nonFinite
  | price (p : Rat)
deriving DecidableEq, Repr

/-- The world around one `getUsdPrices` call: the clock, the TTL the
client was constructed with (the worker passes 60), whether the
upstream responds ok, and the upstream quote per id. -/
structure PriceWorld where
  now : Int
  ttlSeconds : Int
  httpOk : Bool
  upstream : String → UpQuote

/-- `[...new Set(xs)]`: dedupe keeping first occurrences in order. -/
def uniqueFirst (xs : List String) : List String :=
  xs.foldl (fun acc id => if id ∈ acc then acc else acc ++ [id]) []

/-- `uniqueIds`: the requested ids, falsy (empty) ones dropped,
deduplicated. -/
def priceUniqueIds (assetIds : List String) : List String :=
  uniqueFirst (assetIds.filter fun id => id != "")

/-- The `findMany` query: rows among the requested ids whose
`fetched_at` is within the TTL window. -/
def priceCached (w : PriceWorld) (cache : List PriceRow) (uniqueIds : List String) :
    List PriceRow :=
  cache.filter fun r =>
    uniqueIds.contains r.assetId && decide (r.fetchedAt ≥ w.now - w.ttlSeconds)

/-- The result map seeded from the cached rows (`result.set` loop). -/
def priceResult0 (cached : List PriceRow) : List (String × Rat) :=
  cached.foldl (fun m r => setAssoc m r.assetId r.priceUsd) []

/-- `missing`: requested ids not served from cache. -/
def priceMissing (uniqueIds : List String) (result0 : List (String × Rat)) :
    List String :=
  uniqueIds.filter fun id => (lookupG id result0).isNone

/-- The loop over `missing`: finite quotes extend the result map and
are queued as cache updates; absent or non-finite quotes are skipped. -/
def priceFetchFold (w : PriceWorld) (missing : List String)
    (result0 : List (String × Rat)) : List (String × Rat) × List (String × Rat) :=
  missing.foldl
    (fun acc id =>
      match w.upstream id with
      | UpQuote.price p => (setAssoc acc.1 id p, acc.2 ++ [(id, p)])
      | _ => acc)
    (result0, [])

/-- Prisma upsert on the `asset_id` primary key. -/
def upsertPriceRow (cache : List PriceRow) (assetId : String) (p : Rat) (now : Int) :
    List PriceRow :=
  if cache.any fun r => r.assetId == assetId then
    cache.map fun r =>
      if r.assetId == assetId then { r with priceUsd := p, fetchedAt := now } else r
  else cache ++ [{ assetId := assetId, priceUsd := p, fetchedAt := now }]

/-- The update loop writing the fetched quotes back to the cache. -/
def priceNewCache (w : PriceWorld) (cache : List PriceRow)
    (updates : List (String × Rat)) : List PriceRow :=
  updates.foldl (fun c u => upsertPriceRow c u.1 u.2 w.now) cache

/-- `CoinGeckoClient.getUsdPrices`: returns the price map, the cache
table after the call, and the upstream calls performed (each the list
of ids it batched). -/
def getUsdPrices (w : PriceWorld) (cache : List PriceRow) (assetIds : List String) :
    Except Unit (List (String × Rat) × List PriceRow × List (List String)) :=
  let uniqueIds := priceUniqueIds assetIds
  if uniqueIds.isEmpty then Except.ok ([], cache, [])
  else
    let result0 := priceResult0 (priceCached w cache uniqueIds)
    let missing := priceMissing uniqueIds result0
    if missing.isEmpty then Except.ok (result0, cache, [])
    else if !w.httpOk then Except.error ()
    else
      let fetched := priceFetchFold w missing result0
      Except.ok (fetched.1, priceNewCache w cache fetched.2, [missing])


theorem lookupG_setAssoc {α : Type} (m : List (String × α)) (k2 k : String) (v : α) :
    lookupG k (setAssoc m k2 v) = if k2 = k then some v else lookupG k m := by
  induction m with
  | nil =>
    by_cases h : k2 = k <;> simp [setAssoc, lookupG, h]
  | cons kv rest ih =>
    obtain ⟨k0, v0⟩ := kv
    by_cases h1 : k0 = k2
    · by_cases h2 : k0 = k
      · have h3 : k2 = k := h1.symm.trans h2
        simp [setAssoc, lookupG, h1, h2, h3]
      · have h3 : k2 ≠ k := fun hh => h2 (h1.trans hh)
        simp [setAssoc, lookupG, h1, h2, h3]
    · by_cases h2 : k0 = k
      · have h3 : k2 ≠ k := fun hh => h1 (h2.trans hh.symm)
        have h4 : ¬k = k2 := fun hh => h1 (h2.trans hh)
        simp [setAssoc, lookupG, h1, h2, h3, h4]
      · simp [setAssoc, lookupG, h1, h2, ih]

theorem lookupG_fold_set_unchanged (rows : List PriceRow) (m0 : List (String × Rat))
    (id : String) (h : ∀ r ∈ rows, r.assetId ≠ id) :
    lookupG id (rows.foldl (fun m r => setAssoc m r.assetId r.priceUsd) m0)
      = lookupG id m0 := by
  induction rows generalizing m0 with
  | nil => rfl
  | cons r rows ih =>
    simp only [List.foldl_cons]
    rw [ih _ fun r0 h0 => h r0 (List.mem_cons_of_mem _ h0),
      lookupG_setAssoc, if_neg (h r (List.mem_cons_self ..))]

theorem lookupG_priceResult0 (rows : List PriceRow) (m0 : List (String × Rat))
    (id : String) (hnd : (rows.map (·.assetId)).Nodup) :
    lookupG id (rows.foldl (fun m r => setAssoc m r.assetId r.priceUsd) m0)
      = match rows.find? (fun r => r.assetId == id) with
        | some r => some r.priceUsd
        | none => lookupG id m0 := by
  induction rows generalizing m0 with
  | nil => rfl
  | cons r rows ih =>
    simp only [List.map_cons, List.nodup_cons] at hnd
    by_cases h : r.assetId = id
    · have hnone : ∀ r0 ∈ rows, r0.assetId ≠ id := by
        intro r0 h0 hc
        exact hnd.1 (h ▸ hc ▸ List.mem_map.mpr ⟨r0, h0, rfl⟩)
      simp only [List.foldl_cons, List.find?_cons]
      rw [lookupG_fold_set_unchanged rows _ id hnone, lookupG_setAssoc, if_pos h]
      simp [h]
    · simp only [List.foldl_cons, List.find?_cons]
      have hb : (r.assetId == id) = false := by
        simp [h]
      rw [hb]
      simp only [Bool.false_eq_true, if_false]
      rw [ih _ hnd.2, lookupG_setAssoc, if_neg h]

theorem mem_uniqueFirst_fold (xs : List String) (acc : List String) (id : String) :
    id ∈ xs.foldl (fun acc id => if id ∈ acc then acc else acc ++ [id]) acc ↔
      id ∈ acc ∨ id ∈ xs := by
  induction xs generalizing acc with
  | nil => simp
  | cons x xs ih =>
    simp only [List.foldl_cons, ih, List.mem_cons]
    by_cases h : x ∈ acc
    · rw [if_pos h]
      constructor
      · rintro (ha | hx)
        · exact Or.inl ha
        · exact Or.inr (Or.inr hx)
      · rintro (ha | rfl | hx)
        · exact Or.inl ha
        · exact Or.inl h
        · exact Or.inr hx
    · rw [if_neg h]
      simp only [List.mem_append, List.mem_singleton]
      tauto

theorem nodup_uniqueFirst_fold (xs : List String) (acc : List String)
    (h : acc.Nodup) :
    (xs.foldl (fun acc id => if id ∈ acc then acc else acc ++ [id]) acc).Nodup := by
  induction xs generalizing acc with
  | nil => simpa
  | cons x xs ih =>
    simp only [List.foldl_cons]
    by_cases hx : x ∈ acc
    · rw [if_pos hx]
      exact ih _ h
    · rw [if_neg hx]
      exact ih _ (by simp [List.nodup_append, h, hx])

theorem mem_priceUniqueIds (assetIds : List String) (id : String) :
    id ∈ priceUniqueIds assetIds ↔ id ∈ assetIds ∧ id ≠ "" := by
  unfold priceUniqueIds uniqueFirst
  rw [mem_uniqueFirst_fold]
  simp [List.mem_filter]

theorem nodup_priceUniqueIds (assetIds : List String) :
    (priceUniqueIds assetIds).Nodup :=
  nodup_uniqueFirst_fold _ [] List.nodup_nil



theorem find?_of_mem_nodup (rows : List PriceRow) (row : PriceRow)
    (hnd : (rows.map (·.assetId)).Nodup) (hm : row ∈ rows) :
    rows.find? (fun r => r.assetId == row.assetId) = some row := by
  induction rows with
  | nil => simp at hm
  | cons r rest ih =>
    simp only [List.map_cons, List.nodup_cons] at hnd
    rcases List.mem_cons.mp hm with rfl | hm2
    · simp [List.find?_cons]
    · have hne : r.assetId ≠ row.assetId := by
        intro hc
        exact hnd.1 (hc ▸ List.mem_map.mpr ⟨row, hm2, rfl⟩)
      have hb : (r.assetId == row.assetId) = false := by
        simp [hne]
      simp only [List.find?_cons, hb]
      exact ih hnd.2 hm2

theorem find?_pair_of_mem_nodup (l : List (String × Rat)) (u : String × Rat)
    (hnd : (l.map Prod.fst).Nodup) (hm : u ∈ l) :
    l.find? (fun v => v.1 == u.1) = some u := by
  induction l with
  | nil => simp at hm
  | cons v rest ih =>
    simp only [List.map_cons, List.nodup_cons] at hnd
    rcases List.mem_cons.mp hm with rfl | hm2
    · simp [List.find?_cons]
    · have hne : v.1 ≠ u.1 := by
        intro hc
        exact hnd.1 (hc ▸ List.mem_map.mpr ⟨u, hm2, rfl⟩)
      have hb : (v.1 == u.1) = false := by
        simp [hne]
      simp only [List.find?_cons, hb]
      exact ih hnd.2 hm2

/-- Rows of a cache table holding one asset id. -/
def rowsFor (id : String) (cache : List PriceRow) : List PriceRow :=
  cache.filter fun r => r.assetId == id

theorem rowsFor_nodup_eq_find (cache : List PriceRow) (id : String)
    (hnd : (cache.map (·.assetId)).Nodup) :
    rowsFor id cache =
      match cache.find? (fun r => r.assetId == id) with
      | some r => [r]
      | none => [] := by
  induction cache with
  | nil => rfl
  | cons r rest ih =>
    simp only [List.map_cons, List.nodup_cons] at hnd
    by_cases h : r.assetId = id
    · have hrest : rowsFor id rest = [] := by
        unfold rowsFor
        rw [List.filter_eq_nil_iff]
        intro r0 h0
        simp only [beq_iff_eq]
        intro hc
        exact hnd.1 (h ▸ hc ▸ List.mem_map.mpr ⟨r0, h0, rfl⟩)
      unfold rowsFor at hrest ⊢
      simp [List.filter_cons, List.find?_cons, h, hrest]
    · have hb : (r.assetId == id) = false := by
        simp [h]
      unfold rowsFor at ih ⊢
      simp only [List.filter_cons, List.find?_cons, hb, Bool.false_eq_true, if_false]
      exact ih hnd.2

theorem filter_map_upsert_other (cache : List PriceRow) (id id2 : String) (p : Rat)
    (now : Int) (h : id2 ≠ id) :
    List.filter (fun r => r.assetId == id)
        (cache.map fun r =>
          if r.assetId == id2 then { r with priceUsd := p, fetchedAt := now } else r)
      = List.filter (fun r => r.assetId == id) cache := by
  induction cache with
  | nil => rfl
  | cons r rest ih =>
    rw [List.map_cons]
    by_cases hr : r.assetId = id2
    · have h1 : (if r.assetId == id2 then
            ({ r with priceUsd := p, fetchedAt := now } : PriceRow) else r)
          = { r with priceUsd := p, fetchedAt := now } := by
        simp [hr]
      have hne : (({ r with priceUsd := p, fetchedAt := now } : PriceRow).assetId == id)
          = false := by
        simp [hr, h]
      have hne2 : (r.assetId == id) = false := by
        simp [hr, h]
      rw [h1, List.filter_cons, List.filter_cons]
      simp only [hne, hne2, Bool.false_eq_true, if_false]
      exact ih
    · have h1 : (if r.assetId == id2 then
            ({ r with priceUsd := p, fetchedAt := now } : PriceRow) else r) = r := by
        simp [hr]
      rw [h1, List.filter_cons, List.filter_cons]
      cases hri : (r.assetId == id) with
      | false =>
        simp only [hri, Bool.false_eq_true, if_false]
        exact ih
      | true =>
        simp only [hri, if_true]
        rw [ih]

theorem rowsFor_upsert_other (cache : List PriceRow) (id id2 : String) (p : Rat)
    (now : Int) (h : id2 ≠ id) :
    rowsFor id (upsertPriceRow cache id2 p now) = rowsFor id cache := by
  unfold upsertPriceRow
  by_cases hany : cache.any fun r => r.assetId == id2
  · rw [if_pos hany]
    exact filter_map_upsert_other cache id id2 p now h
  · rw [if_neg hany]
    unfold rowsFor
    rw [List.filter_append]
    have hnew : (({ assetId := id2, priceUsd := p, fetchedAt := now } : PriceRow).assetId == id)
        = false := by
      simp [h]
    simp [hnew]

theorem rowsFor_upsert_same (cache : List PriceRow) (id : String) (p : Rat) (now : Int)
    (hnd : (cache.map (·.assetId)).Nodup) :
    rowsFor id (upsertPriceRow cache id p now)
      = [{ assetId := id, priceUsd := p, fetchedAt := now }] := by
  unfold upsertPriceRow
  by_cases hany : cache.any fun r => r.assetId == id
  · rw [if_pos hany]
    obtain ⟨r0, hr0, hr0id⟩ := List.any_eq_true.mp hany
    rw [beq_iff_eq] at hr0id
    have hkeys : ((cache.map fun r =>
        if r.assetId == id then { r with priceUsd := p, fetchedAt := now } else r).map
          (·.assetId)) = cache.map (·.assetId) := by
      rw [List.map_map]
      apply List.map_congr_left
      intro r _
      by_cases hr : r.assetId = id <;> simp [hr]
    have hnd2 : ((cache.map fun r =>
        if r.assetId == id then { r with priceUsd := p, fetchedAt := now } else r).map
          (·.assetId)).Nodup := by
      rw [hkeys]
      exact hnd
    rw [rowsFor_nodup_eq_find _ _ hnd2]
    have hmem : ({ assetId := id, priceUsd := p, fetchedAt := now } : PriceRow)
        ∈ cache.map fun r =>
          if r.assetId == id then { r with priceUsd := p, fetchedAt := now } else r := by
      refine List.mem_map.mpr ⟨r0, hr0, ?_⟩
      simp [hr0id]
    have := find?_of_mem_nodup _ _ hnd2 hmem
    simp only at this
    rw [this]
  · rw [if_neg hany]
    unfold rowsFor
    rw [List.filter_append]
    have hempty : cache.filter (fun r => r.assetId == id) = [] := by
      rw [List.filter_eq_nil_iff]
      intro r0 h0 hp
      exact hany (List.any_eq_true.mpr ⟨r0, h0, hp⟩)
    simp [hempty]

theorem keys_upsertPriceRow (cache : List PriceRow) (id : String) (p : Rat) (now : Int) :
    (upsertPriceRow cache id p now).map (·.assetId)
      = if cache.any (fun r => r.assetId == id) then cache.map (·.assetId)
        else cache.map (·.assetId) ++ [id] := by
  unfold upsertPriceRow
  by_cases hany : cache.any fun r => r.assetId == id
  · rw [if_pos hany, if_pos hany, List.map_map]
    apply List.map_congr_left
    intro r _
    by_cases hr : r.assetId = id <;> simp [hr]
  · rw [if_neg hany, if_neg hany]
    simp

theorem nodup_keys_upsertPriceRow (cache : List PriceRow) (id : String) (p : Rat)
    (now : Int) (hnd : (cache.map (·.assetId)).Nodup) :
    ((upsertPriceRow cache id p now).map (·.assetId)).Nodup := by
  rw [keys_upsertPriceRow]
  by_cases hany : cache.any fun r => r.assetId == id
  · rw [if_pos hany]
    exact hnd
  · rw [if_neg hany]
    have hid : id ∉ cache.map (·.assetId) := by
      intro hm
      obtain ⟨r, hr, hrid⟩ := List.mem_map.mp hm
      exact hany (List.any_eq_true.mpr ⟨r, hr, by simp [hrid]⟩)
    simp [List.nodup_append, hnd, hid]

theorem nodup_keys_priceNewCache (w : PriceWorld) (updates : List (String × Rat))
    (cache : List PriceRow) (hnd : (cache.map (·.assetId)).Nodup) :
    ((priceNewCache w cache updates).map (·.assetId)).Nodup := by
  induction updates generalizing cache with
  | nil => exact hnd
  | cons u us ih =>
    exact ih _ (nodup_keys_upsertPriceRow cache u.1 u.2 w.now hnd)

theorem rowsFor_priceNewCache_unchanged (w : PriceWorld) (updates : List (String × Rat))
    (cache : List PriceRow) (id : String) (h : ∀ u ∈ updates, u.1 ≠ id) :
    rowsFor id (priceNewCache w cache updates) = rowsFor id cache := by
  induction updates generalizing cache with
  | nil => rfl
  | cons u us ih =>
    have h1 : u.1 ≠ id := h u (List.mem_cons_self ..)
    calc rowsFor id (priceNewCache w (upsertPriceRow cache u.1 u.2 w.now) us)
        = rowsFor id (upsertPriceRow cache u.1 u.2 w.now) :=
          ih _ fun v hv => h v (List.mem_cons_of_mem _ hv)
      _ = rowsFor id cache := rowsFor_upsert_other cache id u.1 u.2 w.now h1

theorem rowsFor_priceNewCache (w : PriceWorld) (updates : List (String × Rat))
    (cache : List PriceRow) (id : String) (hnd : (cache.map (·.assetId)).Nodup)
    (hund : (updates.map Prod.fst).Nodup) :
    rowsFor id (priceNewCache w cache updates)
      = match updates.find? (fun u => u.1 == id) with
        | some u => [{ assetId := id, priceUsd := u.2, fetchedAt := w.now }]
        | none => rowsFor id cache := by
  induction updates generalizing cache with
  | nil => rfl
  | cons u us ih =>
    simp only [List.map_cons, List.nodup_cons] at hund
    by_cases hu : u.1 = id
    · have hb : (u.1 == id) = true := by
        simp [hu]
      have hno : ∀ v ∈ us, v.1 ≠ id := by
        intro v hv hc
        exact hund.1 (hu ▸ hc ▸ List.mem_map.mpr ⟨v, hv, rfl⟩)
      simp only [priceNewCache, List.foldl_cons, List.find?_cons, hb]
      rw [show us.foldl (fun c u => upsertPriceRow c u.1 u.2 w.now)
            (upsertPriceRow cache u.1 u.2 w.now)
          = priceNewCache w (upsertPriceRow cache u.1 u.2 w.now) us from rfl]
      rw [rowsFor_priceNewCache_unchanged w us _ id hno, hu]
      exact rowsFor_upsert_same cache id u.2 w.now hnd
    · have hb : (u.1 == id) = false := by
        simp [hu]
      simp only [priceNewCache, List.foldl_cons, List.find?_cons, hb]
      rw [show us.foldl (fun c u => upsertPriceRow c u.1 u.2 w.now)
            (upsertPriceRow cache u.1 u.2 w.now)
          = priceNewCache w (upsertPriceRow cache u.1 u.2 w.now) us from rfl]
      rw [ih (upsertPriceRow cache u.1 u.2 w.now)
        (nodup_keys_upsertPriceRow cache u.1 u.2 w.now hnd) hund.2]
      cases hf : us.find? (fun v => v.1 == id) <;>
        simp [hf, rowsFor_upsert_other cache id u.1 u.2 w.now hu]



/-- The per-id treatment of the upstream response: a finite quote
becomes an update, anything else is skipped. -/
def upstreamUpdate (w : PriceWorld) (id : String) : Option (String × Rat) :=
  match w.upstream id with
  | UpQuote.price p => some (id, p)
  | _ => none

theorem priceFetchFold_snd (w : PriceWorld) (ids : List String)
    (m u : List (String × Rat)) :
    (ids.foldl
        (fun acc id =>
          match w.upstream id with
          | UpQuote.price p => (setAssoc acc.1 id p, acc.2 ++ [(id, p)])
          | _ => acc)
        (m, u)).2
      = u ++ ids.filterMap (upstreamUpdate w) := by
  induction ids generalizing m u with
  | nil => simp
  | cons x ids ih =>
    cases hx : w.upstream x with
    | price p =>
      simp [List.foldl_cons, hx, ih, List.filterMap_cons, upstreamUpdate]
    | absent =>
      simp [List.foldl_cons, hx, ih, List.filterMap_cons, upstreamUpdate]
    | nonFinite =>
      simp [List.foldl_cons, hx, ih, List.filterMap_cons, upstreamUpdate]

theorem priceFetchFold_fst_unchanged (w : PriceWorld) (ids : List String)
    (m u : List (String × Rat)) (id : String) (h : id ∉ ids) :
    lookupG id
        (ids.foldl
          (fun acc id =>
            match w.upstream id with
            | UpQuote.price p => (setAssoc acc.1 id p, acc.2 ++ [(id, p)])
            | _ => acc)
          (m, u)).1
      = lookupG id m := by
  induction ids generalizing m u with
  | nil => rfl
  | cons x ids ih =>
    have hx1 : x ≠ id := fun hc => h (hc ▸ List.mem_cons_self ..)
    have h2 : id ∉ ids := fun hc => h (List.mem_cons_of_mem _ hc)
    cases hx : w.upstream x with
    | price p =>
      simp only [List.foldl_cons, hx]
      rw [ih _ _ h2, lookupG_setAssoc, if_neg hx1]
    | absent =>
      simp only [List.foldl_cons, hx]
      exact ih _ _ h2
    | nonFinite =>
      simp only [List.foldl_cons, hx]
      exact ih _ _ h2

theorem lookupG_priceFetchFold (w : PriceWorld) (ids : List String)
    (m u : List (String × Rat)) (id : String) (hnd : ids.Nodup) :
    lookupG id
        (ids.foldl
          (fun acc id =>
            match w.upstream id with
            | UpQuote.price p => (setAssoc acc.1 id p, acc.2 ++ [(id, p)])
            | _ => acc)
          (m, u)).1
      = if id ∈ ids then
          match w.upstream id with
          | UpQuote.price p => some p
          | _ => lookupG id m
        else lookupG id m := by
  induction ids generalizing m u with
  | nil => simp
  | cons x ids ih =>
    simp only [List.nodup_cons] at hnd
    by_cases hx : x = id
    · subst hx
      have hnotin : x ∉ ids := hnd.1
      rw [if_pos (List.mem_cons_self ..)]
      cases hup : w.upstream x with
      | price p =>
        simp only [List.foldl_cons, hup]
        rw [priceFetchFold_fst_unchanged w ids _ _ x hnotin, lookupG_setAssoc, if_pos rfl]
      | absent =>
        simp only [List.foldl_cons, hup]
        rw [priceFetchFold_fst_unchanged w ids _ _ x hnotin]
      | nonFinite =>
        simp only [List.foldl_cons, hup]
        rw [priceFetchFold_fst_unchanged w ids _ _ x hnotin]
    · have hmem : (id ∈ x :: ids) ↔ id ∈ ids := by
        rw [List.mem_cons]
        constructor
        · rintro (h | h)
          · exact absurd h.symm hx
          · exact h
        · exact Or.inr
      cases hup : w.upstream x with
      | price p =>
        simp only [List.foldl_cons, hup]
        rw [ih _ _ hnd.2, lookupG_setAssoc, if_neg hx]
        by_cases hin : id ∈ ids
        · rw [if_pos hin, if_pos (hmem.mpr hin)]
        · rw [if_neg hin, if_neg (fun hc => hin (hmem.mp hc))]
      | absent =>
        simp only [List.foldl_cons, hup]
        rw [ih _ _ hnd.2]
        by_cases hin : id ∈ ids
        · rw [if_pos hin, if_pos (hmem.mpr hin)]
        · rw [if_neg hin, if_neg (fun hc => hin (hmem.mp hc))]
      | nonFinite =>
        simp only [List.foldl_cons, hup]
        rw [ih _ _ hnd.2]
        by_cases hin : id ∈ ids
        · rw [if_pos hin, if_pos (hmem.mpr hin)]
        · rw [if_neg hin, if_neg (fun hc => hin (hmem.mp hc))]

theorem filterMap_upstream_keys_sublist (w : PriceWorld) (ids : List String) :
    ((ids.filterMap (upstreamUpdate w)).map Prod.fst).Sublist ids := by
  induction ids with
  | nil => simp
  | cons x ids ih =>
    cases hx : w.upstream x with
    | price p =>
      simp only [List.filterMap_cons, upstreamUpdate, hx, List.map_cons]
      exact ih.cons₂ x
    | absent =>
      simp only [List.filterMap_cons, upstreamUpdate, hx]
      exact ih.cons x
    | nonFinite =>
      simp only [List.filterMap_cons, upstreamUpdate, hx]
      exact ih.cons x

theorem mem_filterMap_upstream (w : PriceWorld) (ids : List String) (id : String)
    (p : Rat) :
    (id, p) ∈ ids.filterMap (upstreamUpdate w) ↔
      id ∈ ids ∧ w.upstream id = UpQuote.price p := by
  rw [List.mem_filterMap]
  constructor
  · rintro ⟨a, ha, hup⟩
    unfold upstreamUpdate at hup
    cases hx : w.upstream a with
    | price q =>
      rw [hx] at hup
      injection hup with hup
      injection hup with h1 h2
      subst h1
      subst h2
      exact ⟨ha, hx⟩
    | absent =>
      rw [hx] at hup
      cases hup
    | nonFinite =>
      rw [hx] at hup
      cases hup
  · rintro ⟨ha, hup⟩
    exact ⟨id, ha, by simp [upstreamUpdate, hup]⟩



theorem lookupG_result0_eq_find (w : PriceWorld) (cache : List PriceRow)
    (uids : List String) (id : String) (hnd : (cache.map (·.assetId)).Nodup) :
    lookupG id (priceResult0 (priceCached w cache uids))
      = match (priceCached w cache uids).find? (fun r => r.assetId == id) with
        | some r => some r.priceUsd
        | none => none := by
  have hndc : ((priceCached w cache uids).map (·.assetId)).Nodup :=
    ((List.filter_sublist cache).map _).nodup hnd
  rw [priceResult0, lookupG_priceResult0 _ _ _ hndc]
  cases (priceCached w cache uids).find? (fun r => r.assetId == id) <;> rfl

theorem find?_cached_of_fresh (w : PriceWorld) (cache : List PriceRow)
    (uids : List String) (id : String) (row : PriceRow)
    (hnd : (cache.map (·.assetId)).Nodup)
    (hm : row ∈ cache) (hid : row.assetId = id) (hin : id ∈ uids)
    (hfresh : row.fetchedAt ≥ w.now - w.ttlSeconds) :
    (priceCached w cache uids).find? (fun r => r.assetId == id) = some row := by
  have hndc : ((priceCached w cache uids).map (·.assetId)).Nodup :=
    ((List.filter_sublist cache).map _).nodup hnd
  have hmc : row ∈ priceCached w cache uids := by
    rw [priceCached, List.mem_filter]
    refine ⟨hm, ?_⟩
    simp [hid, hin, hfresh]
  have hfind := find?_of_mem_nodup _ _ hndc hmc
  rw [hid] at hfind
  exact hfind

theorem lookup_some_of_fresh (w : PriceWorld) (cache : List PriceRow)
    (uids : List String) (id : String) (row : PriceRow)
    (hnd : (cache.map (·.assetId)).Nodup)
    (hm : row ∈ cache) (hid : row.assetId = id) (hin : id ∈ uids)
    (hfresh : row.fetchedAt ≥ w.now - w.ttlSeconds) :
    lookupG id (priceResult0 (priceCached w cache uids)) = some row.priceUsd := by
  rw [lookupG_result0_eq_find w cache uids id hnd,
    find?_cached_of_fresh w cache uids id row hnd hm hid hin hfresh]

theorem no_fresh_of_lookup_none (w : PriceWorld) (cache : List PriceRow)
    (uids : List String) (id : String) (hnd : (cache.map (·.assetId)).Nodup)
    (hin : id ∈ uids)
    (hnone : lookupG id (priceResult0 (priceCached w cache uids)) = none) :
    ¬ ∃ row ∈ cache, row.assetId = id ∧ row.fetchedAt ≥ w.now - w.ttlSeconds := by
  rintro ⟨row, hm, hid, hfresh⟩
  rw [lookup_some_of_fresh w cache uids id row hnd hm hid hin hfresh] at hnone
  cases hnone

theorem lookup_none_of_no_fresh (w : PriceWorld) (cache : List PriceRow)
    (uids : List String) (id : String) (hnd : (cache.map (·.assetId)).Nodup)
    (hnof : ¬ ∃ row ∈ cache, row.assetId = id ∧ row.fetchedAt ≥ w.now - w.ttlSeconds) :
    lookupG id (priceResult0 (priceCached w cache uids)) = none := by
  rw [lookupG_result0_eq_find w cache uids id hnd]
  cases hf : (priceCached w cache uids).find? (fun r => r.assetId == id) with
  | none => rfl
  | some r =>
    exfalso
    have hmem := List.mem_of_find?_eq_some hf
    have hpred := List.find?_some hf
    rw [priceCached, List.mem_filter] at hmem
    obtain ⟨hmc, hcond⟩ := hmem
    rw [Bool.and_eq_true] at hcond
    apply hnof
    refine ⟨r, hmc, by simpa using hpred, by simpa using hcond.2⟩

theorem mem_priceMissing (uids : List String) (result0 : List (String × Rat))
    (id : String) :
    id ∈ priceMissing uids result0 ↔ id ∈ uids ∧ lookupG id result0 = none := by
  rw [priceMissing, List.mem_filter]
  simp [Option.isNone_iff_eq_none]



/-- C7: on every successful `get_usd_prices` call with a valid cache
(one row per asset id, TTL 60 s): every requested id with a stored
quote no older than 60 s is served from the cache and appears in no
upstream call; at most one upstream call happens and it batches
exactly the requested ids not served from cache; an id whose upstream
quote is missing or non-finite gets no entry in the returned map and
no cache write; a finite quote is returned and upserted so its id has
exactly one cache row; and the cache keeps at most one row per id. -/
theorem getUsdPrices_cache_semantics (w : PriceWorld) (cache : List PriceRow)
    (assetIds : List String) (res : List (String × Rat)) (newCache : List PriceRow)
    (calls : List (List String))
    (httl : w.ttlSeconds = 60)
    (hnd : (cache.map (·.assetId)).Nodup)
    (hok : getUsdPrices w cache assetIds = Except.ok (res, newCache, calls)) :
    (∀ (id : String) (row : PriceRow), row ∈ cache → id ∈ assetIds → id ≠ "" →
        row.assetId = id → row.fetchedAt ≥ w.now - 60 →
        lookupG id res = some row.priceUsd ∧ ∀ c ∈ calls, id ∉ c)
    ∧ calls.length ≤ 1
    ∧ (∀ id : String, (∃ c ∈ calls, id ∈ c) ↔
        (id ∈ assetIds ∧ id ≠ ""
          ∧ ¬ ∃ row ∈ cache, row.assetId = id ∧ row.fetchedAt ≥ w.now - 60))
    ∧ (∀ id : String, (∃ c ∈ calls, id ∈ c) →
        (∀ p : Rat, w.upstream id ≠ UpQuote.price p) →
        lookupG id res = none ∧ rowsFor id newCache = rowsFor id cache)
    ∧ (∀ (id : String) (p : Rat), (∃ c ∈ calls, id ∈ c) →
        w.upstream id = UpQuote.price p →
        lookupG id res = some p
          ∧ rowsFor id newCache = [{ assetId := id, priceUsd := p, fetchedAt := w.now }])
    ∧ (newCache.map (·.assetId)).Nodup := by
  rw [← httl]
  by_cases hempty : (priceUniqueIds assetIds).isEmpty
  · rw [getUsdPrices] at hok
    simp only [hempty, if_true] at hok
    obtain ⟨hres, hcache2, hcalls⟩ : [] = res ∧ cache = newCache ∧ [] = calls := by
      simpa using hok
    subst hres
    subst hcache2
    subst hcalls
    have hnoid : ∀ id : String, id ∈ assetIds → id ≠ "" → False := by
      intro id h1 h2
      have : id ∈ priceUniqueIds assetIds := (mem_priceUniqueIds assetIds id).mpr ⟨h1, h2⟩
      rw [List.isEmpty_iff] at hempty
      rw [hempty] at this
      simp at this
    refine ⟨?_, by simp, ?_, by simp, by simp, hnd⟩
    · intro id row _ h1 h2
      exact absurd (hnoid id h1 h2) (by simp)
    · intro id
      constructor
      · rintro ⟨c, hc, _⟩
        simp at hc
      · rintro ⟨h1, h2, _⟩
        exact absurd (hnoid id h1 h2) (by simp)
  · rw [getUsdPrices] at hok
    simp only [hempty, Bool.false_eq_true, if_false] at hok
    by_cases hmiss : (priceMissing (priceUniqueIds assetIds)
        (priceResult0 (priceCached w cache (priceUniqueIds assetIds)))).isEmpty
    · simp only [hmiss, if_true] at hok
      obtain ⟨hres, hcache2, hcalls⟩ :
          priceResult0 (priceCached w cache (priceUniqueIds assetIds)) = res
            ∧ cache = newCache ∧ [] = calls := by
        simpa using hok
      subst hres
      subst hcache2
      subst hcalls
      refine ⟨?_, by simp, ?_, by simp, by simp, hnd⟩
      · intro id row hm h1 h2 hid hfresh
        have hin : id ∈ priceUniqueIds assetIds :=
          (mem_priceUniqueIds assetIds id).mpr ⟨h1, h2⟩
        refine ⟨lookup_some_of_fresh w cache _ id row hnd hm hid hin hfresh, ?_⟩
        intro c hc
        simp at hc
      · intro id
        constructor
        · rintro ⟨c, hc, _⟩
          simp at hc
        · rintro ⟨h1, h2, hnof⟩
          exfalso
          have hin : id ∈ priceUniqueIds assetIds :=
            (mem_priceUniqueIds assetIds id).mpr ⟨h1, h2⟩
          have hnone := lookup_none_of_no_fresh w cache (priceUniqueIds assetIds) id hnd hnof
          have : id ∈ priceMissing (priceUniqueIds assetIds)
              (priceResult0 (priceCached w cache (priceUniqueIds assetIds))) :=
            (mem_priceMissing _ _ id).mpr ⟨hin, hnone⟩
          rw [List.isEmpty_iff] at hmiss
          rw [hmiss] at this
          simp at this
    · simp only [hmiss, Bool.false_eq_true, if_false] at hok
      by_cases hhttp : w.httpOk
      · simp only [hhttp, Bool.not_true, Bool.false_eq_true, if_false] at hok
        obtain ⟨hres, hcache2, hcalls⟩ :
            (priceFetchFold w (priceMissing (priceUniqueIds assetIds)
                (priceResult0 (priceCached w cache (priceUniqueIds assetIds))))
                (priceResult0 (priceCached w cache (priceUniqueIds assetIds)))).1 = res
              ∧ priceNewCache w cache (priceFetchFold w (priceMissing (priceUniqueIds assetIds)
                  (priceResult0 (priceCached w cache (priceUniqueIds assetIds))))
                  (priceResult0 (priceCached w cache (priceUniqueIds assetIds)))).2 = newCache
              ∧ [priceMissing (priceUniqueIds assetIds)
                  (priceResult0 (priceCached w cache (priceUniqueIds assetIds)))] = calls := by
          simpa using hok
        subst hres
        subst hcache2
        subst hcalls
        set uids := priceUniqueIds assetIds with huids
        set result0 := priceResult0 (priceCached w cache uids) with hres0
        set missing := priceMissing uids result0 with hmissing
        have hndm : missing.Nodup := by
          rw [hmissing, priceMissing]
          exact (List.filter_sublist uids).nodup (nodup_priceUniqueIds assetIds)
        have hupd : (priceFetchFold w missing result0).2
            = missing.filterMap (upstreamUpdate w) := by
          rw [priceFetchFold, priceFetchFold_snd]
          simp
        have hundk : ((missing.filterMap (upstreamUpdate w)).map Prod.fst).Nodup :=
          (filterMap_upstream_keys_sublist w missing).nodup hndm
        have hlookup : ∀ id : String, lookupG id (priceFetchFold w missing result0).1
            = if id ∈ missing then
                match w.upstream id with
                | UpQuote.price p => some p
                | _ => lookupG id result0
              else lookupG id result0 := by
          intro id
          rw [priceFetchFold, lookupG_priceFetchFold w missing result0 [] id hndm]
        refine ⟨?_, by simp, ?_, ?_, ?_, ?_⟩
        · -- fresh rows still served, and not in the single call
          intro id row hm h1 h2 hid hfresh
          have hin : id ∈ uids := (mem_priceUniqueIds assetIds id).mpr ⟨h1, h2⟩
          have hsome : lookupG id result0 = some row.priceUsd :=
            lookup_some_of_fresh w cache uids id row hnd hm hid hin hfresh
          have hnotmiss : id ∉ missing := by
            intro hc
            rw [mem_priceMissing] at hc
            rw [hsome] at hc
            cases hc.2
          refine ⟨?_, ?_⟩
          · rw [hlookup id, if_neg hnotmiss, hsome]
          · intro c hc
            simp only [List.mem_singleton] at hc
            subst hc
            exact hnotmiss
        · -- the single call holds exactly the non-fresh requested ids
          intro id
          constructor
          · rintro ⟨c, hc, hidc⟩
            simp only [List.mem_singleton] at hc
            subst hc
            have hmm := (mem_priceMissing uids result0 id).mp hidc
            have hids := (mem_priceUniqueIds assetIds id).mp hmm.1
            exact ⟨hids.1, hids.2, no_fresh_of_lookup_none w cache uids id hnd hmm.1 hmm.2⟩
          · rintro ⟨h1, h2, hnof⟩
            have hin : id ∈ uids := (mem_priceUniqueIds assetIds id).mpr ⟨h1, h2⟩
            refine ⟨missing, by simp, ?_⟩
            exact (mem_priceMissing uids result0 id).mpr
              ⟨hin, lookup_none_of_no_fresh w cache uids id hnd hnof⟩
        · -- missing or non-finite upstream quotes: no entry, no write
          intro id hc hbad
          obtain ⟨c, hc1, hc2⟩ := hc
          simp only [List.mem_singleton] at hc1
          subst hc1
          have hmm := (mem_priceMissing uids result0 id).mp hc2
          have hfind : (missing.filterMap (upstreamUpdate w)).find? (fun u => u.1 == id)
              = none := by
            rw [List.find?_eq_none]
            rintro ⟨id2, p⟩ hu hpred
            rw [beq_iff_eq] at hpred
            dsimp only at hpred
            subst hpred
            exact hbad p ((mem_filterMap_upstream w missing id2 p).mp hu).2
          constructor
          · rw [hlookup id, if_pos hc2]
            cases hup : w.upstream id with
            | price p => exact absurd hup (hbad p)
            | absent => exact hmm.2
            | nonFinite => exact hmm.2
          · rw [hupd, rowsFor_priceNewCache w _ cache id hnd hundk, hfind]
        · -- finite quotes land in the result and are upserted
          intro id p hc hup
          obtain ⟨c, hc1, hc2⟩ := hc
          simp only [List.mem_singleton] at hc1
          subst hc1
          have hmem : (id, p) ∈ missing.filterMap (upstreamUpdate w) :=
            (mem_filterMap_upstream w missing id p).mpr ⟨hc2, hup⟩
          have hfind := find?_pair_of_mem_nodup _ _ hundk hmem
          constructor
          · rw [hlookup id, if_pos hc2, hup]
          · rw [hupd, rowsFor_priceNewCache w _ cache id hnd hundk, hfind]
        · rw [hupd]
          exact nodup_keys_priceNewCache w _ cache hnd
      · simp only [hhttp, Bool.not_false, if_true] at hok
        cases hok


/-- Witness world for C7: clock 1000, TTL 60, upstream knows only
"sol" (2 USD). -/
def wPriceWorld : PriceWorld :=
  { now := 1000, ttlSeconds := 60, httpOk := true,
    upstream := fun id => if id == "sol" then UpQuote.price 2 else UpQuote.absent }

/-- Witness cache: one fresh quote for "btc". -/
def wPriceCache : List PriceRow := [{ assetId := "btc", priceUsd := 5, fetchedAt := 950 }]

/-- Requested ids: one fresh, one fetchable, one unknown upstream. -/
def wPriceIds : List String := ["btc", "sol", "bad"]

def wPriceRes : List (String × Rat) := [("btc", 5), ("sol", 2)]

def wPriceNewCache : List PriceRow :=
  [{ assetId := "btc", priceUsd := 5, fetchedAt := 950 },
   { assetId := "sol", priceUsd := 2, fetchedAt := 1000 }]

def wPriceCalls : List (List String) := [["sol", "bad"]]

/-- Witness for C7: "btc" is served from cache and kept out of the
upstream call; "sol" is fetched, returned and upserted. -/
theorem getUsdPrices_cache_semantics_witness :
    (lookupG "btc" wPriceRes = some ((5 : Rat)) ∧ ∀ c ∈ wPriceCalls, "btc" ∉ c)
    ∧ (lookupG "sol" wPriceRes = some ((2 : Rat))
        ∧ rowsFor "sol" wPriceNewCache
            = [{ assetId := "sol", priceUsd := 2, fetchedAt := wPriceWorld.now }]) := by
  refine ⟨?_, ?_⟩
  · exact (getUsdPrices_cache_semantics wPriceWorld wPriceCache wPriceIds wPriceRes
      wPriceNewCache wPriceCalls rfl (by decide) rfl).1 "btc"
      { assetId := "btc", priceUsd := 5, fetchedAt := 950 }
      (by decide) (by decide) (by decide) rfl (by decide)
  · exact (getUsdPrices_cache_semantics wPriceWorld wPriceCache wPriceIds wPriceRes
      wPriceNewCache wPriceCalls rfl (by decide) rfl).2.2.2.2.1 "sol" 2
      ⟨["sol", "bad"], by decide, by decide⟩ rfl



/-! ## NFT counting (src/solana/holdingsService.ts)

`extractVerifiedCollectionAddress` reads untyped JSON grouping entries
(`Record<string, unknown>`), so the fields it touches are modelled as
optional JSON values; the typed `content.metadata.collection` fallback
keeps its declared option types.  `countItems` is the counting loop of
`fetchNftCountsByCollection` over the assets of a wallet scan. -/

/-- A JSON value sitting in an untyped DAS grouping entry. -/
inductive JVal
  | jstr (s : String)
  | jbool (b : Bool)
  | jnum (n : Int)
  | jnull
deriving DecidableEq, Repr

/-- JavaScript truthiness of an optional JSON field (`undefined`,
`null`, `false`, `0` and `""` are falsy). -/
def truthyJ : Option JVal → Bool
  | none => false
  | some (JVal.jstr s) => s != ""
  | some (JVal.jbool b) => b
  | some (JVal.jnum n) => n != 0
  | some JVal.jnull => false

/-- One `grouping` entry: the four fields the extractor reads. -/
structure GroupEntry where
  group_key : Option JVal
  group_value : Option JVal
  verified : Option JVal
  collection_verified : Option JVal
deriving DecidableEq, Repr

/-- `content.metadata.collection` as typed in the source. -/
structure CollectionMeta where
  key : Option String
  verified : Option Bool
deriving DecidableEq, Repr

/-- `content.metadata`. -/
structure ContentMetadata where
  collection : Option CollectionMeta
deriving DecidableEq, Repr

/-- `content`. -/
structure AssetContent where
  metadata : Option ContentMetadata
deriving DecidableEq, Repr

/-- A DAS asset: the grouping array (absent or non-array behaves as
empty) and the optional content metadata. -/
structure DasAsset where
  grouping : Option (List GroupEntry)
  content : Option AssetContent
deriving DecidableEq, Repr

/-- The grouping loop of `extractVerifiedCollectionAddress`: first
entry whose `group_key` is the string "collection", whose
`group_value` is a string, and whose `verified` or
`collection_verified` is strictly the boolean `true` (`=== true`). -/
def findVerifiedGroupingValue : List GroupEntry → Option String
  | [] => none
  | g :: rest =>
    match g.group_value with
    | some (JVal.jstr value) =>
      if g.group_key == some (JVal.jstr "collection")
          && (g.verified == some (JVal.jbool true)
              || g.collection_verified == some (JVal.jbool true)) then
        some value
      else findVerifiedGroupingValue rest
    | _ => findVerifiedGroupingValue rest

/-- `extractVerifiedCollectionAddress`: the grouping loop, then the
`content.metadata.collection` fallback (`verified` truthy — for its
`boolean | undefined` type, strictly `true` — and a truthy, i.e.
non-empty, key). -/
def extractVerifiedCollectionAddress (asset : DasAsset) : Option String :=
  match findVerifiedGroupingValue (asset.grouping.getD []) with
  | some value => some value
  | none =>
    match (asset.content.bind (·.metadata)).bind (·.collection) with
    | some c =>
      match c.verified, c.key with
      | some true, some k => if k != "" then some k else none
      | _, _ => none
    | none => none

/-- The counting loop of `fetchNftCountsByCollection` over the scanned
assets: one increment per asset with a verified collection address. -/
def countItems (items : List DasAsset) : List (String × Nat) :=
  items.foldl
    (fun counts item =>
      match extractVerifiedCollectionAddress item with
      | none => counts
      | some collection =>
        setAssoc counts collection ((lookupG collection counts).getD 0 + 1))
    []

/-- The verification signal exactly as the source accepts it: a
grouping entry with string-"collection" key, string value and
`verified`/`collection_verified` strictly `=== true`, or the verified
content-metadata fallback with a non-empty key. -/
def strictVerificationSignal (asset : DasAsset) : Bool :=
  ((asset.grouping.getD []).any fun g =>
    g.group_key == some (JVal.jstr "collection")
      && (match g.group_value with
          | some (JVal.jstr _) => true
          | _ => false)
      && (g.verified == some (JVal.jbool true)
          || g.collection_verified == some (JVal.jbool true)))
  || (match (asset.content.bind (·.metadata)).bind (·.collection) with
      | some c =>
        match c.verified, c.key with
        | some true, some k => k != ""
        | _, _ => false
      | none => false)

/-- The verification signal as the spec sentence words it: like the
source's, but accepting any TRUTHY `verified` (or
`collection_verified`) value in a grouping entry rather than only the
boolean `true`. -/
def truthyVerificationSignal (asset : DasAsset) : Bool :=
  ((asset.grouping.getD []).any fun g =>
    g.group_key == some (JVal.jstr "collection")
      && (match g.group_value with
          | some (JVal.jstr _) => true
          | _ => false)
      && (truthyJ g.verified || truthyJ g.collection_verified))
  || (match (asset.content.bind (·.metadata)).bind (·.collection) with
      | some c =>
        match c.verified, c.key with
        | some true, some k => k != ""
        | _, _ => false
      | none => false)

/-- An asset whose grouping entry carries `verified: 1` — truthy in
JavaScript, but not strictly `=== true`. -/
def assetTruthyNumVerified : DasAsset :=
  { grouping := some [{ group_key := some (JVal.jstr "collection")
                        group_value := some (JVal.jstr "C")
                        verified := some (JVal.jnum 1)
                        collection_verified := none }]
    content := none }

/-- Counterexample to C8 as stated: this asset carries a truthy
verification signal in the claim's sense, yet the extractor rejects it
and the counting step counts nothing. -/
theorem nft_truthy_signal_counterexample :
    truthyVerificationSignal assetTruthyNumVerified = true
    ∧ extractVerifiedCollectionAddress assetTruthyNumVerified = none
    ∧ countItems [assetTruthyNumVerified] = [] := by
  decide

theorem findVerifiedGroupingValue_isSome (l : List GroupEntry) :
    (findVerifiedGroupingValue l).isSome
      = l.any fun g =>
          g.group_key == some (JVal.jstr "collection")
            && (match g.group_value with
                | some (JVal.jstr _) => true
                | _ => false)
            && (g.verified == some (JVal.jbool true)
                || g.collection_verified == some (JVal.jbool true)) := by
  induction l with
  | nil => rfl
  | cons g rest ih =>
    cases hv : g.group_value with
    | none =>
      simp only [findVerifiedGroupingValue, hv, List.any_cons, ih]
      simp
    | some v =>
      cases v with
      | jstr s =>
        cases hk : (g.group_key == some (JVal.jstr "collection")) with
        | true =>
          cases hver : (g.verified == some (JVal.jbool true)
              || g.collection_verified == some (JVal.jbool true)) with
          | true => simp [findVerifiedGroupingValue, hv, hk, hver]
          | false => simp [findVerifiedGroupingValue, hv, hk, hver, ih]
        | false => simp [findVerifiedGroupingValue, hv, hk, ih]
      | jbool b =>
        simp only [findVerifiedGroupingValue, hv, List.any_cons, ih]
        simp
      | jnum n =>
        simp only [findVerifiedGroupingValue, hv, List.any_cons, ih]
        simp
      | jnull =>
        simp only [findVerifiedGroupingValue, hv, List.any_cons, ih]
        simp

theorem extract_isSome_eq_strict (asset : DasAsset) :
    (extractVerifiedCollectionAddress asset).isSome
      = strictVerificationSignal asset := by
  unfold extractVerifiedCollectionAddress strictVerificationSignal
  cases hf : findVerifiedGroupingValue (asset.grouping.getD []) with
  | some v =>
    have hany := findVerifiedGroupingValue_isSome (asset.grouping.getD [])
    rw [hf] at hany
    simp only [Option.isSome_some] at hany
    rw [← hany]
    simp
  | none =>
    have hany := findVerifiedGroupingValue_isSome (asset.grouping.getD [])
    rw [hf] at hany
    simp only [Option.isSome_none] at hany
    rw [← hany]
    simp only [Bool.false_or]
    cases hc : (asset.content.bind (·.metadata)).bind (·.collection) with
    | none => rfl
    | some c =>
      cases hcv : c.verified with
      | none =>
        cases hck : c.key <;> simp [hcv, hck]
      | some b =>
        cases b with
        | false => cases hck : c.key <;> simp [hcv, hck]
        | true =>
          cases hck : c.key with
          | none => simp [hcv, hck]
          | some k =>
            cases hkk : (k != "") <;> simp [hcv, hck, hkk]

theorem countItems_fold (items : List DasAsset) (m : List (String × Nat)) (c : String) :
    (lookupG c (items.foldl
        (fun counts item =>
          match extractVerifiedCollectionAddress item with
          | none => counts
          | some collection =>
            setAssoc counts collection ((lookupG collection counts).getD 0 + 1)) m)).getD 0
      = (lookupG c m).getD 0
        + (items.filter fun a => extractVerifiedCollectionAddress a == some c).length := by
  induction items generalizing m with
  | nil => simp
  | cons a items ih =>
    cases ha : extractVerifiedCollectionAddress a with
    | none =>
      have hpred : (extractVerifiedCollectionAddress a == some c) = false := by
        simp [ha]
      simp only [List.foldl_cons, ha, List.filter_cons, hpred, Bool.false_eq_true, if_false]
      exact ih m
    | some col =>
      by_cases hcol : col = c
      · subst hcol
        have hbt : (some col == some col) = true := by
          simp
        simp only [List.foldl_cons, ha, List.filter_cons, hbt, if_true, List.length_cons]
        rw [ih, lookupG_setAssoc, if_pos rfl]
        simp only [Option.getD_some]
        omega
      · have hbt : (some col == some c) = false := by
          simp [hcol]
        simp only [List.foldl_cons, ha, List.filter_cons, hbt, Bool.false_eq_true, if_false]
        rw [ih, lookupG_setAssoc, if_neg hcol]

/-- C8 (amended): the NFT counting step counts an asset under its
extracted collection exactly when the asset carries a verification
signal in the source's strict sense — a grouping entry with
`group_key == "collection"`, a string group value and a
`verified`/`collection_verified` flag strictly equal to the boolean
`true`, or `content.metadata.collection.verified == true` with a
non-empty key — and a qualifying asset is counted exactly once per
wallet scan: the count for a collection is the number of scanned
assets extracting to it. -/
theorem nft_counting_strict_signal (items : List DasAsset) (c : String) :
    ((lookupG c (countItems items)).getD 0
        = (items.filter fun a => extractVerifiedCollectionAddress a == some c).length)
    ∧ ∀ asset : DasAsset,
        (extractVerifiedCollectionAddress asset).isSome
          = strictVerificationSignal asset := by
  refine ⟨?_, fun asset => extract_isSome_eq_strict asset⟩
  have hfold := countItems_fold items [] c
  simpa [countItems, lookupG] using hfold


end DiscordGating
